import Mathlib

/-!
Verification of the maritime-monitor data freshness and reconciliation
pipeline.  The TypeScript sources are shallowly embedded as Lean
definitions: JavaScript `Map` objects become association lists,
`Date.now()` becomes an explicit `Nat` parameter, numbers become `ℚ`
(with `Option ℚ` coding a possibly-NaN parse result), and rejected
promises become `Except` values.  Theorems below establish or refute the
specified properties of the cache, rate limiter, store merge operations,
and the map reconciler.
-/

/-! ### Association lists (model of JavaScript `Map`) -/

/-- `Map.get`: the value stored at the first matching key, if any. -/
def assocGet {κ γ : Type} [DecidableEq κ] (l : List (κ × γ)) (k : κ) : Option γ :=
  (l.find? (fun p => p.1 = k)).map (fun p => p.2)

/-- `Map.set`: replace the first binding of the key, or append a new binding. -/
def assocSet {κ γ : Type} [DecidableEq κ] : List (κ × γ) → κ → γ → List (κ × γ)
  | [], k, v => [(k, v)]
  | (k', v') :: rest, k, v =>
      if k' = k then (k, v) :: rest else (k', v') :: assocSet rest k v

/-- `Map.keys` (in insertion order). -/
def assocKeys {κ γ : Type} (l : List (κ × γ)) : List κ := l.map (fun p => p.1)

theorem assocGet_cons_self {κ γ : Type} [DecidableEq κ] (rest : List (κ × γ)) (k : κ) (v : γ) :
    assocGet ((k, v) :: rest) k = some v := by
  simp [assocGet, List.find?]

theorem assocGet_cons_other {κ γ : Type} [DecidableEq κ] (rest : List (κ × γ)) (a k : κ) (b : γ)
    (h : a ≠ k) : assocGet ((a, b) :: rest) k = assocGet rest k := by
  simp [assocGet, List.find?, h]

theorem assocGet_set_self {κ γ : Type} [DecidableEq κ] (l : List (κ × γ)) (k : κ) (v : γ) :
    assocGet (assocSet l k v) k = some v := by
  induction l with
  | nil => simp [assocGet, assocSet, List.find?]
  | cons p rest ih =>
      obtain ⟨a, b⟩ := p
      by_cases h : a = k
      · simp [assocSet, assocGet, h, List.find?]
      · simp [assocSet, assocGet, h, List.find?] at ih ⊢
        exact ih

theorem assocGet_set_other {κ γ : Type} [DecidableEq κ] (l : List (κ × γ)) (k k' : κ) (v : γ)
    (h : k' ≠ k) : assocGet (assocSet l k v) k' = assocGet l k' := by
  induction l with
  | nil => simp [assocGet, assocSet, List.find?, Ne.symm h]
  | cons p rest ih =>
      obtain ⟨a, b⟩ := p
      by_cases ha : a = k
      · subst ha
        simp [assocSet, assocGet, List.find?, h, Ne.symm h]
      · by_cases hb : a = k'
        · subst hb
          simp [assocSet, assocGet, ha, List.find?]
        · simp [assocSet, assocGet, ha, List.find?, hb] at ih ⊢
          exact ih

theorem assocGet_isSome_iff_mem {κ γ : Type} [DecidableEq κ] (l : List (κ × γ)) (k : κ) :
    (assocGet l k).isSome = true ↔ k ∈ assocKeys l := by
  induction l with
  | nil => simp [assocGet, assocKeys, List.find?]
  | cons p rest ih =>
      obtain ⟨a, b⟩ := p
      by_cases ha : a = k
      · subst ha
        simp [assocGet_cons_self, assocKeys]
      · rw [assocGet_cons_other rest a k b ha]
        simp only [assocKeys, List.map_cons, List.mem_cons]
        rw [ih]
        simp only [assocKeys]
        constructor
        · exact fun hm => Or.inr hm
        · rintro (hk | hm)
          · exact absurd hk (fun hh => ha hh.symm)
          · exact hm

theorem assocKeys_set_of_mem {κ γ : Type} [DecidableEq κ] (l : List (κ × γ)) (k : κ) (v : γ) :
    k ∈ assocKeys l → assocKeys (assocSet l k v) = assocKeys l := by
  induction l with
  | nil => intro h; simp [assocKeys] at h
  | cons p rest ih =>
      intro h
      obtain ⟨a, b⟩ := p
      by_cases ha : a = k
      · subst ha; simp [assocSet, assocKeys]
      · have hr : k ∈ assocKeys rest := by
          simp only [assocKeys, List.map_cons, List.mem_cons] at h
          rcases h with h | h
          · exact absurd h.symm ha
          · exact h
        simp only [assocSet, if_neg ha, assocKeys, List.map_cons]
        rw [show List.map (fun p => p.1) (assocSet rest k v) = assocKeys rest from ih hr]
        simp [assocKeys]

theorem assocKeys_set_of_not_mem {κ γ : Type} [DecidableEq κ] (l : List (κ × γ)) (k : κ) (v : γ) :
    k ∉ assocKeys l → assocKeys (assocSet l k v) = assocKeys l ++ [k] := by
  induction l with
  | nil => intro _; simp [assocSet, assocKeys]
  | cons p rest ih =>
      intro h
      obtain ⟨a, b⟩ := p
      have ha : a ≠ k := fun hh => h (by simp [assocKeys, hh])
      have hr : k ∉ assocKeys rest := fun hh => h (by
        simp only [assocKeys, List.map_cons, List.mem_cons]
        exact Or.inr hh)
      simp only [assocSet, if_neg ha, assocKeys, List.map_cons, List.cons_append]
      rw [show List.map (fun p => p.1) (assocSet rest k v) = assocKeys rest ++ [k] from ih hr]
      simp [assocKeys]

/-! ### Generic list helpers -/

/-- Substring test, as JavaScript's `String.prototype.includes`. -/
def listIsInfixOf (sub : List Char) : List Char → Bool
  | [] => sub.isEmpty
  | c :: rest => sub.isPrefixOf (c :: rest) || listIsInfixOf sub rest

/-- `s.includes(sub)` on strings. -/
def strIncludes (s sub : String) : Bool := listIsInfixOf sub.toList s.toList

theorem length_filter_le_of_imp {α : Type} (l : List α) (p q : α → Bool)
    (h : ∀ a ∈ l, q a = true → p a = true) :
    (l.filter q).length ≤ (l.filter p).length := by
  induction l with
  | nil => simp
  | cons a rest ih =>
      have hrest : ∀ b ∈ rest, q b = true → p b = true :=
        fun b hb => h b (List.mem_cons_of_mem a hb)
      by_cases hq : q a = true
      · rw [List.filter_cons_of_pos hq, List.filter_cons_of_pos (h a (List.mem_cons_self a rest) hq)]
        simpa using ih hrest
      · rw [List.filter_cons_of_neg (by simpa using hq)]
        by_cases hp : p a = true
        · rw [List.filter_cons_of_pos hp]
          exact le_trans (ih hrest) (by simp)
        · rw [List.filter_cons_of_neg (by simpa using hp)]
          exact ih hrest

theorem find?_filter_of_imp {α : Type} (l : List α) (p q : α → Bool)
    (h : ∀ a ∈ l, q a = true → p a = true) :
    (l.filter p).find? q = l.find? q := by
  induction l with
  | nil => simp
  | cons a rest ih =>
      have hrest : ∀ b ∈ rest, q b = true → p b = true :=
        fun b hb => h b (List.mem_cons_of_mem a hb)
      by_cases hq : q a = true
      · rw [List.filter_cons_of_pos (h a (List.mem_cons_self a rest) hq)]
        rw [List.find?_cons_of_pos _ hq, List.find?_cons_of_pos _ hq]
      · by_cases hp : p a = true
        · rw [List.filter_cons_of_pos hp, List.find?_cons_of_neg _ (by simpa using hq),
            List.find?_cons_of_neg _ (by simpa using hq)]
          exact ih hrest
        · rw [List.filter_cons_of_neg (by simpa using hp), List.find?_cons_of_neg _ (by simpa using hq)]
          exact ih hrest

/-! ### TimedCache: the per-service cache of `security-monitor.ts` / `weather-service.ts`

`CacheEntry` is `{ data, timestamp }`; the cache itself is a
`Map<string, CacheEntry>`.  `isCacheValid` computes the entry's age at
read time and compares it against the fixed per-service timeout. -/

structure SvcCacheEntry (α : Type) where
  data : α
  timestamp : Nat
  deriving Repr, DecidableEq

/-- A service cache: `Map<string, CacheEntry>`. -/
abbrev SvcCache (α : Type) : Type := List (String × SvcCacheEntry α)

/-- `this.cache.get(key)` -/
def cacheGet {α : Type} (c : SvcCache α) (k : String) : Option (SvcCacheEntry α) :=
  assocGet c k

/-- `this.cache.set(key, { data, timestamp })` -/
def cacheSet {α : Type} (c : SvcCache α) (k : String) (e : SvcCacheEntry α) : SvcCache α :=
  assocSet c k e

/-- `isCacheValid(key)`: the entry exists and `Date.now() - entry.timestamp < cacheTimeout`. -/
def isCacheValid {α : Type} (c : SvcCache α) (timeout : Nat) (k : String) (now : Nat) : Bool :=
  match cacheGet c k with
  | none => false
  | some e => now - e.timestamp < timeout

/-- The freshness-guarded read used by every service:
`if (isCacheValid(key)) { const cached = cache.get(key); if (cached) return cached.data }`. -/
def getIfFresh {α : Type} (c : SvcCache α) (timeout : Nat) (k : String) (now : Nat) : Option α :=
  if isCacheValid c timeout k now then (cacheGet c k).map (fun e => e.data) else none

/-- Claim C9: a fresh-read (`getIfFresh`) returns the stored value when queried
immediately after `set`, never returns an entry whose age `now - insertedAt`
reaches the TTL, and returns absent once the TTL has elapsed since insertion;
the unqualified `get` still returns the (stale) value. -/
theorem cache_freshness_spec {α : Type} (c : SvcCache α) (k : String) (v : α)
    (timeout tset tq : Nat) (htimeout : 0 < timeout) :
    getIfFresh (cacheSet c k ⟨v, tset⟩) timeout k tset = some v ∧
    (∀ (c' : SvcCache α) (now : Nat) (d : α), getIfFresh c' timeout k now = some d →
      ∃ e, cacheGet c' k = some e ∧ e.data = d ∧ now - e.timestamp < timeout) ∧
    (timeout ≤ tq - tset → getIfFresh (cacheSet c k ⟨v, tset⟩) timeout k tq = none) ∧
    cacheGet (cacheSet c k ⟨v, tset⟩) k = some ⟨v, tset⟩ := by
  have hget : cacheGet (cacheSet c k ⟨v, tset⟩) k = some ⟨v, tset⟩ :=
    assocGet_set_self c k ⟨v, tset⟩
  refine ⟨?_, ?_, ?_, hget⟩
  · simp only [getIfFresh, isCacheValid, hget]
    simp [Nat.sub_self, htimeout]
  · intro c' now d hfresh
    by_cases hval : isCacheValid c' timeout k now = true
    · simp only [getIfFresh, hval, if_true] at hfresh
      match he : cacheGet c' k with
      | none => rw [he] at hfresh; simp at hfresh
      | some e =>
          rw [he] at hfresh
          have hdata : e.data = d := by simpa using hfresh
          refine ⟨e, rfl, hdata, ?_⟩
          simp only [isCacheValid, he] at hval
          simpa using hval
    · simp [getIfFresh, hval] at hfresh
  · intro helapsed
    have hstale : ¬ (tq - tset < timeout) := by omega
    simp [getIfFresh, isCacheValid, hget, hstale]

/-- Witness for C9 at a concrete cache, key and times (the weather service's
600000 ms timeout, set at time 0, queried at time 600000). -/
theorem cache_freshness_spec_witness :
    getIfFresh (cacheSet ([] : SvcCache Nat) "k" ⟨7, 0⟩) 600000 "k" 0 = some 7 ∧
    (600000 ≤ 600000 - 0 → getIfFresh (cacheSet ([] : SvcCache Nat) "k" ⟨7, 0⟩) 600000 "k" 600000 = none) ∧
    cacheGet (cacheSet ([] : SvcCache Nat) "k" ⟨7, 0⟩) "k" = some ⟨7, 0⟩ := by
  have h := cache_freshness_spec ([] : SvcCache Nat) "k" 7 600000 0 600000 (by decide)
  exact ⟨h.1, h.2.2.1, h.2.2.2⟩

/-! ### Entity types (`types/maritime.ts` as used by the store and services) -/

/-- A vessel as produced by the tracker and consumed by store and map.
`timestamp` is the observation time string carried through unchanged. -/
structure Vessel where
  id : String
  mmsi : String
  name : String
  type : String
  speed : ℚ
  course : ℚ
  latitude : ℚ
  longitude : ℚ
  timestamp : String
  deriving Repr, DecidableEq

/-- Incident severity enum. -/
inductive Severity where
  | critical
  | high
  | medium
  | low
  deriving Repr, DecidableEq

/-- A security incident as produced by `fetchReCAAP_Incidents`.  JavaScript
numbers that may be `NaN` (results of `parseFloat`) are coded as `Option ℚ`
with `none` standing for `NaN`. -/
structure SecurityIncident where
  id : String
  type : String
  description : String
  location : String
  latitude : Option ℚ
  longitude : Option ℚ
  date : String
  severity : Severity
  status : String
  source : String
  timestamp : String
  deriving Repr, DecidableEq

/-- A weather observation as produced by `WeatherService.getCurrentWeather`.
`timestamp` is epoch milliseconds (the `toISOString` rendering is abstracted). -/
structure WeatherData where
  id : String
  latitude : ℚ
  longitude : ℚ
  temperature : ℚ
  feelsLike : ℚ
  humidity : ℚ
  pressure : ℚ
  windSpeed : ℚ
  windDirection : ℚ
  windGust : ℚ
  description : String
  clouds : ℚ
  visibility : ℚ
  rain : ℚ
  waves : ℚ
  timestamp : Nat
  location : String
  source : String
  deriving Repr, DecidableEq

/-! ### Merge-by-identity (`maritime-store.ts` `addVessels`/`addWeather`/`addIncidents`)

Each `add*` method copies the current array, then for each incoming entity
replaces the first element with a matching `id` (`findIndex` + assignment)
or pushes it at the end.  `upsertBy` is that per-entity step and `mergeBy`
the whole loop. -/

/-- One step of the `add*` merge loop: replace the first element whose key
matches, else push at the end. -/
def upsertBy {α : Type} (key : α → String) : List α → α → List α
  | [], v => [v]
  | w :: ws, v => if key w = key v then v :: ws else w :: upsertBy key ws v

/-- The whole `add*` merge loop over an incoming batch. -/
def mergeBy {α : Type} (key : α → String) (l : List α) (xs : List α) : List α :=
  xs.foldl (upsertBy key) l

/-- First element with the given key (JavaScript `findIndex` view). -/
def firstVal {α : Type} (key : α → String) (l : List α) (k : String) : Option α :=
  l.find? (fun w => key w = k)

/-- Last element of the batch carrying the given key, if any. -/
def lastWithKey {α : Type} (key : α → String) (k : String) : List α → Option α
  | [] => none
  | x :: xs =>
      match lastWithKey key k xs with
      | some y => some y
      | none => if key x = k then some x else none

theorem upsert_of_not_mem {α : Type} (key : α → String) (l : List α) (v : α)
    (h : key v ∉ l.map key) : upsertBy key l v = l ++ [v] := by
  induction l with
  | nil => simp [upsertBy]
  | cons w ws ih =>
      have hw : key w ≠ key v := fun hh => h (by simp [hh])
      have hws : key v ∉ ws.map key := fun hh => h (by simp [hh])
      simp [upsertBy, hw, ih hws]

theorem mem_keys_upsert {α : Type} (key : α → String) (l : List α) (v : α) :
    key v ∈ (upsertBy key l v).map key := by
  induction l with
  | nil => simp [upsertBy]
  | cons w ws ih =>
      by_cases hw : key w = key v
      · simp [upsertBy, hw]
      · simp only [upsertBy, if_neg hw, List.map_cons, List.mem_cons]
        exact Or.inr ih

theorem keys_upsert_superset {α : Type} (key : α → String) (l : List α) (v : α) (k : String)
    (h : k ∈ l.map key) : k ∈ (upsertBy key l v).map key := by
  induction l with
  | nil => simp at h
  | cons w ws ih =>
      by_cases hw : key w = key v
      · simp only [upsertBy, if_pos hw, List.map_cons, List.mem_cons]
        simp only [List.map_cons, List.mem_cons] at h
        rcases h with h | h
        · exact Or.inl (by rw [h, hw])
        · exact Or.inr h
      · simp only [upsertBy, if_neg hw, List.map_cons, List.mem_cons]
        simp only [List.map_cons, List.mem_cons] at h
        rcases h with h | h
        · exact Or.inl h
        · exact Or.inr (ih h)

theorem keys_merge_superset {α : Type} (key : α → String) (l xs : List α) (k : String)
    (h : k ∈ l.map key) : k ∈ (mergeBy key l xs).map key := by
  induction xs generalizing l with
  | nil => simpa [mergeBy] using h
  | cons x xs ih =>
      simp only [mergeBy, List.foldl_cons]
      exact ih (upsertBy key l x) (keys_upsert_superset key l x k h)

theorem firstVal_upsert_self {α : Type} (key : α → String) (l : List α) (v : α) :
    firstVal key (upsertBy key l v) (key v) = some v := by
  induction l with
  | nil => simp [upsertBy, firstVal, List.find?]
  | cons w ws ih =>
      by_cases hw : key w = key v
      · simp [upsertBy, hw, firstVal, List.find?]
      · simp only [upsertBy, if_neg hw]
        rw [firstVal, List.find?_cons_of_neg _ (by simpa using hw)]
        exact ih

theorem firstVal_upsert_other {α : Type} (key : α → String) (l : List α) (v : α) (k : String)
    (h : k ≠ key v) : firstVal key (upsertBy key l v) k = firstVal key l k := by
  induction l with
  | nil => simp [upsertBy, firstVal, List.find?, Ne.symm h]
  | cons w ws ih =>
      by_cases hw : key w = key v
      · have hvk : ¬ (key v = k) := fun hh => h hh.symm
        have hwk : ¬ (key w = k) := fun hh => h (by rw [← hh, hw])
        simp only [upsertBy, if_pos hw]
        rw [firstVal, List.find?_cons_of_neg _ (by simpa using hvk),
          firstVal, List.find?_cons_of_neg _ (by simpa using hwk)]
      · simp only [upsertBy, if_neg hw]
        by_cases hwk : key w = k
        · rw [firstVal, List.find?_cons_of_pos _ (by simpa using hwk),
            firstVal, List.find?_cons_of_pos _ (by simpa using hwk)]
        · rw [firstVal, List.find?_cons_of_neg _ (by simpa using hwk),
            firstVal, List.find?_cons_of_neg _ (by simpa using hwk)]
          exact ih

theorem upsert_eq_self_of_firstVal {α : Type} (key : α → String) (l : List α) (v : α)
    (h : firstVal key l (key v) = some v) : upsertBy key l v = l := by
  induction l with
  | nil => simp [firstVal, List.find?] at h
  | cons w ws ih =>
      by_cases hw : key w = key v
      · rw [firstVal, List.find?_cons_of_pos _ (by simpa using hw)] at h
        have : w = v := by injection h
        subst this
        simp [upsertBy]
      · rw [firstVal, List.find?_cons_of_neg _ (by simpa using hw)] at h
        simp [upsertBy, hw, ih h]

theorem upsert_upsert_same {α : Type} (key : α → String) (l : List α) (v x : α)
    (h : key x = key v) : upsertBy key (upsertBy key l v) x = upsertBy key l x := by
  induction l with
  | nil => simp [upsertBy, h.symm]
  | cons w ws ih =>
      by_cases hw : key w = key v
      · have hwx : key w = key x := by rw [hw, h]
        simp [upsertBy, hw, hwx, h.symm]
      · have hwx : key w ≠ key x := fun hh => hw (by rw [hh, h])
        simp [upsertBy, hw, hwx, ih]

theorem upsert_comm_of_mem {α : Type} (key : α → String) (l : List α) (v x : α)
    (hv : key v ∈ l.map key) (hx : key x ≠ key v) :
    upsertBy key (upsertBy key l v) x = upsertBy key (upsertBy key l x) v := by
  induction l with
  | nil => simp at hv
  | cons w ws ih =>
      by_cases hw : key w = key v
      · have hwx : key w ≠ key x := fun hh => hx (by rw [← hh, hw])
        have hvx : key v ≠ key x := fun hh => hx hh.symm
        simp [upsertBy, hw, hvx, Ne.symm hvx, hwx, fun hh => hwx hh]
      · have hv' : key v ∈ ws.map key := by
          simp only [List.map_cons, List.mem_cons] at hv
          rcases hv with hv | hv
          · exact absurd hv.symm hw
          · exact hv
        by_cases hwx : key w = key x
        · have l1 : upsertBy key (w :: ws) v = w :: upsertBy key ws v := by
            simp [upsertBy, hw]
          have l2 : upsertBy key (w :: upsertBy key ws v) x = x :: upsertBy key ws v := by
            simp [upsertBy, hwx]
          have r1 : upsertBy key (w :: ws) x = x :: ws := by
            simp [upsertBy, hwx]
          have r2 : upsertBy key (x :: ws) v = x :: upsertBy key ws v := by
            simp [upsertBy, hx]
          rw [l1, l2, r1, r2]
        · have l1 : upsertBy key (w :: ws) v = w :: upsertBy key ws v := by
            simp [upsertBy, hw]
          have l2 : upsertBy key (w :: upsertBy key ws v) x = w :: upsertBy key (upsertBy key ws v) x := by
            simp [upsertBy, hwx]
          have r1 : upsertBy key (w :: ws) x = w :: upsertBy key ws x := by
            simp [upsertBy, hwx]
          have r2 : upsertBy key (w :: upsertBy key ws x) v = w :: upsertBy key (upsertBy key ws x) v := by
            simp [upsertBy, hw]
          rw [l1, l2, r1, r2, ih hv']

theorem merge_upsert_of_mem {α : Type} (key : α → String) (xs : List α) (l : List α) (v : α) :
    key v ∈ l.map key →
    mergeBy key (upsertBy key l v) xs =
      (lastWithKey key (key v) xs).elim (upsertBy key (mergeBy key l xs) v)
        (fun _ => mergeBy key l xs) := by
  induction xs generalizing l with
  | nil => intro hv; simp [mergeBy, lastWithKey]
  | cons x xs ih =>
      intro hv
      by_cases hx : key x = key v
      · have h1 : mergeBy key (upsertBy key l v) (x :: xs) = mergeBy key (upsertBy key l x) xs := by
          simp only [mergeBy, List.foldl_cons]
          rw [upsert_upsert_same key l v x hx]
        have h3 : ∃ y, lastWithKey key (key v) (x :: xs) = some y := by
          simp only [lastWithKey]
          cases hrec : lastWithKey key (key v) xs with
          | some y => exact ⟨y, rfl⟩
          | none => exact ⟨x, by simp [hx]⟩
        obtain ⟨y, hy⟩ := h3
        rw [h1, hy]
        simp only [Option.elim]
        rfl
      · have h1 : mergeBy key (upsertBy key l v) (x :: xs) =
            mergeBy key (upsertBy key (upsertBy key l x) v) xs := by
          simp only [mergeBy, List.foldl_cons]
          rw [upsert_comm_of_mem key l v x hv hx]
        have h2 : lastWithKey key (key v) (x :: xs) = lastWithKey key (key v) xs := by
          simp only [lastWithKey]
          cases hrec : lastWithKey key (key v) xs with
          | some y => rfl
          | none => simp [hx]
        rw [h1, ih (upsertBy key l x) (keys_upsert_superset key l x (key v) hv), h2]
        rfl

theorem firstVal_merge {α : Type} (key : α → String) (xs : List α) (l : List α) (k : String) :
    firstVal key (mergeBy key l xs) k =
      (lastWithKey key k xs).elim (firstVal key l k) some := by
  induction xs generalizing l with
  | nil => simp [mergeBy, lastWithKey]
  | cons x xs ih =>
      have hstep : mergeBy key l (x :: xs) = mergeBy key (upsertBy key l x) xs := rfl
      rw [hstep, ih (upsertBy key l x)]
      cases hrec : lastWithKey key k xs with
      | some y =>
          have : lastWithKey key k (x :: xs) = some y := by
            simp only [lastWithKey, hrec]
          rw [this]
          rfl
      | none =>
          by_cases hxk : key x = k
          · have : lastWithKey key k (x :: xs) = some x := by
              simp only [lastWithKey, hrec, if_pos hxk]
            rw [this]
            simp only [Option.elim]
            rw [← hxk]
            exact firstVal_upsert_self key l x
          · have : lastWithKey key k (x :: xs) = none := by
              simp only [lastWithKey, hrec, if_neg hxk]
            rw [this]
            simp only [Option.elim]
            exact firstVal_upsert_other key l x k (fun hh => hxk hh.symm)

/-- `mergeCollection` is idempotent at the level of the underlying array:
running the `add*` merge loop twice with the same batch gives the same array. -/
theorem merge_idem {α : Type} (key : α → String) (l xs : List α) :
    mergeBy key (mergeBy key l xs) xs = mergeBy key l xs := by
  induction xs generalizing l with
  | nil => rfl
  | cons x xs ih =>
      have hstep : mergeBy key l (x :: xs) = mergeBy key (upsertBy key l x) xs := rfl
      rw [hstep]
      have hmem : key x ∈ (mergeBy key (upsertBy key l x) xs).map key :=
        keys_merge_superset key (upsertBy key l x) xs (key x) (mem_keys_upsert key l x)
      have hlhs : mergeBy key (mergeBy key (upsertBy key l x) xs) (x :: xs) =
          mergeBy key (upsertBy key (mergeBy key (upsertBy key l x) xs) x) xs := rfl
      rw [hlhs, merge_upsert_of_mem key xs (mergeBy key (upsertBy key l x) xs) x hmem]
      cases hrec : lastWithKey key (key x) xs with
      | some y =>
          simp only [Option.elim]
          exact ih (upsertBy key l x)
      | none =>
          simp only [Option.elim]
          rw [ih (upsertBy key l x)]
          apply upsert_eq_self_of_firstVal
          rw [firstVal_merge key xs (upsertBy key l x) (key x), hrec]
          simp only [Option.elim]
          exact firstVal_upsert_self key l x

/-- Merging a batch with pairwise-distinct, previously-unseen keys appends it. -/
theorem merge_append_of_nodup {α : Type} (key : α → String) (xs l : List α) :
    (l.map key ++ xs.map key).Nodup → mergeBy key l xs = l ++ xs := by
  induction xs generalizing l with
  | nil => intro _; simp [mergeBy]
  | cons x xs ih =>
      intro hnd
      rw [List.nodup_append] at hnd
      obtain ⟨hl, hxs, hdisj⟩ := hnd
      have hx : key x ∉ l.map key := by
        intro hmem
        exact hdisj hmem (by simp)
      have hstep : mergeBy key l (x :: xs) = mergeBy key (upsertBy key l x) xs := rfl
      rw [hstep, upsert_of_not_mem key l x hx]
      have hnd' : ((l ++ [x]).map key ++ xs.map key).Nodup := by
        rw [List.map_append, List.append_assoc]
        rw [List.nodup_append]
        refine ⟨hl, ?_, ?_⟩
        · simpa [List.nodup_cons] using hxs
        · intro a ha hb
          simp only [List.map_cons, List.map_nil, List.singleton_append, List.mem_cons] at hb
          rcases hb with hb | hb
          · subst hb; exact hx ha
          · exact hdisj ha (by simp [hb])
      rw [ih (l ++ [x]) hnd']
      simp

/-! ### MaritimeStore (`maritime-store.ts`)

State is the fields of `AppState` relevant to the verified pipeline;
`updateState` is record update, and each public mutation is translated
directly.  `new Date()` becomes the explicit `now` argument. -/

/-- `AppState.activeLayers`. -/
structure ActiveLayers where
  vessels : Bool
  weather : Bool
  security : Bool
  humanitarian : Bool
  policy : Bool
  deriving Repr, DecidableEq

/-- The store's state (`AppState`), restricted to the data, alert, error,
layer and freshness fields that the verified pipeline reads and writes. -/
structure StoreState where
  vessels : List Vessel
  weather : List WeatherData
  incidents : List SecurityIncident
  alerts : List String
  activeLayers : ActiveLayers
  loading : Bool
  error : Option String
  lastUpdated : Option Nat
  deriving Repr, DecidableEq

/-- `getInitialState()` (dark-mode detection and UI-only fields omitted). -/
def initialState : StoreState :=
  { vessels := []
    weather := []
    incidents := []
    alerts := []
    activeLayers :=
      { vessels := true, weather := true, security := true
        humanitarian := false, policy := false }
    loading := false
    error := none
    lastUpdated := none }

/-- `setVessels(vessels)`: replace the collection and stamp `lastUpdated`. -/
def setVessels (st : StoreState) (vs : List Vessel) (now : Nat) : StoreState :=
  { st with vessels := vs, lastUpdated := some now }

/-- `addVessels(vessels)`: merge by id into the current array, then `setVessels`. -/
def addVessels (st : StoreState) (vs : List Vessel) (now : Nat) : StoreState :=
  setVessels st (mergeBy Vessel.id st.vessels vs) now

/-- `setWeather(weather)` (does not stamp `lastUpdated`). -/
def setWeather (st : StoreState) (ws : List WeatherData) : StoreState :=
  { st with weather := ws }

/-- `addWeather(weather)`. -/
def addWeather (st : StoreState) (ws : List WeatherData) : StoreState :=
  setWeather st (mergeBy WeatherData.id st.weather ws)

/-- `setIncidents(incidents)`: replace the collection and stamp `lastUpdated`. -/
def setIncidents (st : StoreState) (is : List SecurityIncident) (now : Nat) : StoreState :=
  { st with incidents := is, lastUpdated := some now }

/-- `addIncidents(incidents)`. -/
def addIncidents (st : StoreState) (is : List SecurityIncident) (now : Nat) : StoreState :=
  setIncidents st (mergeBy SecurityIncident.id st.incidents is) now

/-- `addAlert(alert)`: append to the alert log. -/
def addAlert (st : StoreState) (a : String) : StoreState :=
  { st with alerts := st.alerts ++ [a] }

/-- `setError(error)`. -/
def setError (st : StoreState) (e : Option String) : StoreState :=
  { st with error := e }

/-- `setLoading(loading)`. -/
def setLoading (st : StoreState) (b : Bool) : StoreState :=
  { st with loading := b }

/-- Claim C7: for every kind, calling `mergeCollection` (`addVessels` /
`addIncidents` / `addWeather`) twice in succession with the identical batch
leaves the store in the same state as calling it once. -/
theorem merge_collection_idempotent (st : StoreState)
    (vs : List Vessel) (is : List SecurityIncident) (ws : List WeatherData) (now : Nat) :
    addVessels (addVessels st vs now) vs now = addVessels st vs now ∧
    addIncidents (addIncidents st is now) is now = addIncidents st is now ∧
    addWeather (addWeather st ws) ws = addWeather st ws := by
  refine ⟨?_, ?_, ?_⟩
  · simp only [addVessels, setVessels]
    rw [merge_idem Vessel.id st.vessels vs]
  · simp only [addIncidents, setIncidents]
    rw [merge_idem SecurityIncident.id st.incidents is]
  · simp only [addWeather, setWeather]
    rw [merge_idem WeatherData.id st.weather ws]

/-- Claim C8 (amended): for batches whose entity ids are pairwise distinct —
the data model's "globally unique id" invariant — `replaceCollection(kind, [])`
followed by `mergeCollection(kind, X)` leaves the kind's collection equal to
`replaceCollection(kind, X)`. -/
theorem replace_empty_then_merge (st st' : StoreState)
    (vs : List Vessel) (is : List SecurityIncident) (ws : List WeatherData)
    (t1 t2 t3 : Nat)
    (hv : (vs.map Vessel.id).Nodup)
    (hi : (is.map SecurityIncident.id).Nodup)
    (hw : (ws.map WeatherData.id).Nodup) :
    (addVessels (setVessels st [] t1) vs t2).vessels = (setVessels st' vs t3).vessels ∧
    (addIncidents (setIncidents st [] t1) is t2).incidents = (setIncidents st' is t3).incidents ∧
    (addWeather (setWeather st []) ws).weather = (setWeather st' ws).weather := by
  refine ⟨?_, ?_, ?_⟩
  · simp only [addVessels, setVessels]
    exact merge_append_of_nodup Vessel.id vs [] (by simpa using hv)
  · simp only [addIncidents, setIncidents]
    exact merge_append_of_nodup SecurityIncident.id is [] (by simpa using hi)
  · simp only [addWeather, setWeather]
    exact merge_append_of_nodup WeatherData.id ws [] (by simpa using hw)

/-- Witness for C8 at concrete two-element batches with distinct ids. -/
theorem replace_empty_then_merge_witness :
    (addVessels (setVessels initialState [] 0)
        [⟨"v1", "m1", "Alpha", "cargo", 10, 90, 1, 2, "t1"⟩,
         ⟨"v2", "m2", "Beta", "tanker", 12, 180, 3, 4, "t2"⟩] 5).vessels =
      (setVessels initialState
        [⟨"v1", "m1", "Alpha", "cargo", 10, 90, 1, 2, "t1"⟩,
         ⟨"v2", "m2", "Beta", "tanker", 12, 180, 3, 4, "t2"⟩] 9).vessels := by
  exact (replace_empty_then_merge initialState initialState
    [⟨"v1", "m1", "Alpha", "cargo", 10, 90, 1, 2, "t1"⟩,
     ⟨"v2", "m2", "Beta", "tanker", 12, 180, 3, 4, "t2"⟩] [] [] 0 5 9
    (by decide) (by decide) (by decide)).1

/-- Counterexample for C8 as stated: with a batch containing two entities that
share an id, merge-into-empty keeps only the later occurrence while replace
keeps both, so the resulting collections differ. -/
theorem replace_empty_then_merge_cex :
    (addVessels (setVessels initialState [] 0)
        [⟨"dup", "m1", "Alpha", "cargo", 10, 90, 1, 2, "t1"⟩,
         ⟨"dup", "m1", "Alpha", "cargo", 11, 90, 1, 2, "t2"⟩] 5).vessels ≠
      (setVessels initialState
        [⟨"dup", "m1", "Alpha", "cargo", 10, 90, 1, 2, "t1"⟩,
         ⟨"dup", "m1", "Alpha", "cargo", 11, 90, 1, 2, "t2"⟩] 5).vessels := by
  decide

/-! ### RateLimiter (`WeatherService.checkRateLimit`)

`requestTimestamps` is the sliding window.  The call prunes timestamps
older than the window, and when the pruned window is saturated it sleeps
`windowDurationMs - (now - oldestTimestamp) + 100` before recording
`Date.now()`; otherwise it records immediately.  In the sequential model
the recording instant is `now + waitTime` resp. `now`. -/

/-- `rateLimitWindow = 60 * 1000`. -/
def rateLimitWindow : Nat := 60000

/-- `rateLimitMax = 60` calls per window. -/
def rateLimitMax : Nat := 60

/-- The prune step: keep timestamps with `now - t < rateLimitWindow`. -/
def rlPrune (ts : List Nat) (now : Nat) : List Nat :=
  ts.filter (fun t => now - t < rateLimitWindow)

/-- Number of recorded timestamps inside the trailing window at instant `at_`. -/
def countInWindow (ts : List Nat) (at_ : Nat) : Nat :=
  (ts.filter (fun t => at_ - t < rateLimitWindow)).length

/-- `checkRateLimit()`: returns the new timestamp list and the instant at which
the new request timestamp is recorded (= the instant the caller proceeds). -/
def checkRateLimit (ts : List Nat) (now : Nat) : List Nat × Nat :=
  let pruned := rlPrune ts now
  if rateLimitMax ≤ pruned.length then
    let oldestRequest := pruned.headD 0
    let waitTime := rateLimitWindow - (now - oldestRequest) + 100
    (pruned ++ [now + waitTime], now + waitTime)
  else
    (pruned ++ [now], now)

/-- Largest recorded timestamp (0 for an empty record). -/
def listMax : List Nat → Nat
  | [] => 0
  | t :: ts => max t (listMax ts)

/-- Well-formedness of the rate limiter state: timestamps are in
chronological order and the window was never over-filled. -/
def rlWF (ts : List Nat) : Prop :=
  List.Sorted (· ≤ ·) ts ∧ countInWindow ts (listMax ts) ≤ rateLimitMax

theorem le_listMax {ts : List Nat} {t : Nat} (h : t ∈ ts) : t ≤ listMax ts := by
  induction ts with
  | nil => simp at h
  | cons a rest ih =>
      rcases List.mem_cons.mp h with h | h
      · subst h; simp [listMax]
      · exact le_trans (ih h) (by simp [listMax])

theorem listMax_le {ts : List Nat} {T : Nat} (h : ∀ t ∈ ts, t ≤ T) : listMax ts ≤ T := by
  induction ts with
  | nil => simp [listMax]
  | cons a rest ih =>
      simp only [listMax, max_le_iff]
      exact ⟨h a (by simp), ih (fun t ht => h t (List.mem_cons_of_mem a ht))⟩

theorem countInWindow_le_length (ts : List Nat) (at_ : Nat) :
    countInWindow ts at_ ≤ ts.length := by
  exact List.length_filter_le _ ts

/-- The in-window count is antitone in the observation instant, once the
instant is past every recorded timestamp. -/
theorem countInWindow_antitone (ts : List Nat) (t1 t2 : Nat)
    (hall : ∀ t ∈ ts, t ≤ t1) (h12 : t1 ≤ t2) :
    countInWindow ts t2 ≤ countInWindow ts t1 := by
  apply length_filter_le_of_imp
  intro t ht hq
  have h1 : t ≤ t1 := hall t ht
  have hq' : t2 - t < rateLimitWindow := by simpa using hq
  simpa using (show t1 - t < rateLimitWindow by omega)

theorem filter_filter_of_imp {α : Type} (l : List α) (p q : α → Bool)
    (h : ∀ a ∈ l, p a = true → q a = true) :
    (l.filter q).filter p = l.filter p := by
  induction l with
  | nil => simp
  | cons a rest ih =>
      have hrest : ∀ b ∈ rest, p b = true → q b = true :=
        fun b hb => h b (List.mem_cons_of_mem a hb)
      by_cases hp : p a = true
      · have hqa : q a = true := h a (List.mem_cons_self a rest) hp
        rw [List.filter_cons_of_pos hqa, List.filter_cons_of_pos hp,
          List.filter_cons_of_pos hp, ih hrest]
      · by_cases hqa : q a = true
        · rw [List.filter_cons_of_pos hqa, List.filter_cons_of_neg (by simpa using hp),
            List.filter_cons_of_neg (by simpa using hp)]
          exact ih hrest
        · rw [List.filter_cons_of_neg (by simpa using hqa),
            List.filter_cons_of_neg (by simpa using hp)]
          exact ih hrest

theorem countInWindow_prune (ts : List Nat) (now at_ : Nat) (hna : now ≤ at_) :
    countInWindow (rlPrune ts now) at_ = countInWindow ts at_ := by
  simp only [countInWindow, rlPrune]
  rw [filter_filter_of_imp ts _ _ ?_]
  intro t _ hp
  simp only [decide_eq_true_eq] at hp ⊢
  omega

/-- Claim C2: immediately before a new request timestamp is recorded, the
count of recorded timestamps inside the trailing window is strictly below
`rateLimitMax`; a saturated call is delayed by exactly
`rateLimitWindow - (now - oldestTimestamp) + 100` and an unsaturated call
proceeds immediately; every call records its timestamp (none is rejected);
and well-formedness is preserved for the next call. -/
theorem rate_limit_invariant (ts : List Nat) (now : Nat)
    (hwf : rlWF ts) (hpast : ∀ t ∈ ts, t ≤ now) :
    countInWindow ts (checkRateLimit ts now).2 < rateLimitMax ∧
    (checkRateLimit ts now).1 = rlPrune ts now ++ [(checkRateLimit ts now).2] ∧
    (rateLimitMax ≤ countInWindow ts now →
      (checkRateLimit ts now).2 =
        now + (rateLimitWindow - (now - (rlPrune ts now).headD 0) + 100)) ∧
    (countInWindow ts now < rateLimitMax → (checkRateLimit ts now).2 = now) ∧
    rlWF (checkRateLimit ts now).1 ∧
    (∀ t ∈ (checkRateLimit ts now).1, t ≤ (checkRateLimit ts now).2) := by
  have hcount_now : countInWindow ts now = (rlPrune ts now).length := rfl
  have hprune_past : ∀ t ∈ rlPrune ts now, t ≤ now := by
    intro t ht
    exact hpast t (List.mem_of_mem_filter ht)
  have hprune_sorted : List.Sorted (· ≤ ·) (rlPrune ts now) := hwf.1.filter _
  have hlen_le_max : (rlPrune ts now).length ≤ rateLimitMax := by
    rw [← hcount_now]
    calc countInWindow ts now
        ≤ countInWindow ts (listMax ts) :=
          countInWindow_antitone ts (listMax ts) now
            (fun t ht => le_listMax ht) (listMax_le hpast)
      _ ≤ rateLimitMax := hwf.2
  by_cases hsat : rateLimitMax ≤ (rlPrune ts now).length
  · -- saturated: wait out the window, then record
    have hres : checkRateLimit ts now =
        (rlPrune ts now ++ [now + (rateLimitWindow - (now - (rlPrune ts now).headD 0) + 100)],
          now + (rateLimitWindow - (now - (rlPrune ts now).headD 0) + 100)) := by
      simp only [checkRateLimit, if_pos hsat]
    obtain ⟨h0, rest, hcons⟩ : ∃ h0 rest, rlPrune ts now = h0 :: rest := by
      cases hp : rlPrune ts now with
      | nil =>
          rw [hp] at hsat
          simp [rateLimitMax] at hsat
      | cons a l => exact ⟨a, l, rfl⟩
    set p := now + (rateLimitWindow - (now - (rlPrune ts now).headD 0) + 100) with hp_def
    have hhead : (rlPrune ts now).headD 0 = h0 := by rw [hcons]; rfl
    have h0_mem : h0 ∈ rlPrune ts now := by rw [hcons]; simp
    have h0_le_now : h0 ≤ now := hprune_past h0 h0_mem
    have h0_in : now - h0 < rateLimitWindow := by
      have := (List.mem_filter.mp h0_mem).2
      simpa using this
    have hnow_le_p : now ≤ p := by omega
    have hp_h0 : p - h0 = rateLimitWindow + 100 := by
      rw [hp_def, hhead]
      omega
    have hdrop : ¬ (p - h0 < rateLimitWindow) := by omega
    have hcount_p_pruned : countInWindow (rlPrune ts now) p ≤ rateLimitMax - 1 := by
      rw [hcons]
      have : countInWindow (h0 :: rest) p = (rest.filter (fun t => p - t < rateLimitWindow)).length := by
        simp only [countInWindow]
        rw [List.filter_cons_of_neg (by simpa using hdrop)]
      rw [this]
      have h1 : (rest.filter (fun t => p - t < rateLimitWindow)).length ≤ rest.length :=
        List.length_filter_le _ rest
      have h2 : rest.length + 1 = (rlPrune ts now).length := by rw [hcons]; rfl
      omega
    have hcount_p : countInWindow ts p ≤ rateLimitMax - 1 := by
      rw [← countInWindow_prune ts now p hnow_le_p]
      exact hcount_p_pruned
    refine ⟨?_, ?_, ?_, ?_, ?_, ?_⟩
    · rw [hres]
      simp only []
      have : (0:Nat) < rateLimitMax := by simp [rateLimitMax]
      omega
    · rw [hres]
    · intro _
      rw [hres]
    · intro hc
      rw [hcount_now] at hc
      omega
    · -- preserved well-formedness
      rw [hres]
      constructor
      · rw [List.Sorted, List.pairwise_append]
        refine ⟨hprune_sorted, by simp, ?_⟩
        intro a ha b hb
        simp only [List.mem_singleton] at hb
        subst hb
        exact le_trans (hprune_past a ha) hnow_le_p
      · have hmax_eq : listMax (rlPrune ts now ++ [p]) = p := by
          apply le_antisymm
          · apply listMax_le
            intro t ht
            rcases List.mem_append.mp ht with ht | ht
            · exact le_trans (hprune_past t ht) hnow_le_p
            · simp only [List.mem_singleton] at ht; omega
          · exact le_listMax (by simp)
        rw [hmax_eq]
        simp only [countInWindow, List.filter_append]
        rw [List.length_append]
        have hpp : countInWindow [p] p ≤ 1 := countInWindow_le_length [p] p
        have := hcount_p_pruned
        simp only [countInWindow] at this hpp
        have hmaxpos : (0:Nat) < rateLimitMax := by simp [rateLimitMax]
        omega
    · rw [hres]
      intro t ht
      rcases List.mem_append.mp ht with ht | ht
      · exact le_trans (hprune_past t ht) hnow_le_p
      · simp only [List.mem_singleton] at ht; omega
  · -- unsaturated: record immediately
    have hres : checkRateLimit ts now = (rlPrune ts now ++ [now], now) := by
      simp only [checkRateLimit, if_neg hsat]
    have hlen_lt : (rlPrune ts now).length < rateLimitMax := by omega
    refine ⟨?_, ?_, ?_, ?_, ?_, ?_⟩
    · rw [hres]
      simp only []
      rw [hcount_now]
      exact hlen_lt
    · rw [hres]
    · intro hc
      rw [hcount_now] at hc
      omega
    · intro _
      rw [hres]
    · rw [hres]
      constructor
      · rw [List.Sorted, List.pairwise_append]
        refine ⟨hprune_sorted, by simp, ?_⟩
        intro a ha b hb
        simp only [List.mem_singleton] at hb
        subst hb
        exact hprune_past a ha
      · have hmax_eq : listMax (rlPrune ts now ++ [now]) = now := by
          apply le_antisymm
          · apply listMax_le
            intro t ht
            rcases List.mem_append.mp ht with ht | ht
            · exact hprune_past t ht
            · simp only [List.mem_singleton] at ht; omega
          · exact le_listMax (by simp)
        rw [hmax_eq]
        simp only [countInWindow, List.filter_append]
        rw [List.length_append]
        have h1 : (List.filter (fun t => now - t < rateLimitWindow) (rlPrune ts now)).length ≤
            (rlPrune ts now).length := List.length_filter_le _ _
        have h2 : (List.filter (fun t => now - t < rateLimitWindow) [now]).length ≤ 1 :=
          List.length_filter_le _ _
        omega
    · rw [hres]
      intro t ht
      rcases List.mem_append.mp ht with ht | ht
      · exact hprune_past t ht
      · simp only [List.mem_singleton] at ht; omega

set_option maxRecDepth 4000 in
/-- Witness for C2 at a saturated concrete state: 60 requests recorded at
instant 0 and a 61st call at instant 50. -/
theorem rate_limit_invariant_witness :
    countInWindow (List.replicate 60 0) (checkRateLimit (List.replicate 60 0) 50).2 < rateLimitMax ∧
    (rateLimitMax ≤ countInWindow (List.replicate 60 0) 50 →
      (checkRateLimit (List.replicate 60 0) 50).2 =
        50 + (rateLimitWindow - (50 - (rlPrune (List.replicate 60 0) 50).headD 0) + 100)) := by
  have h := rate_limit_invariant (List.replicate 60 0) 50
    (by constructor
        · decide
        · decide)
    (by decide)
  exact ⟨h.1, h.2.2.1⟩

/-! ### SecurityMonitorService (`security-monitor.ts`)

`fetchReCAAP_Incidents` maps the raw feed into `SecurityIncident`s and
filters out entries whose `parseFloat`ed coordinates are `NaN` (`none`);
`getSecurityIncidents` adds the fresh-cache short-circuit, a bounds filter,
and the stale-cache fallback on failure. -/

/-- JavaScript `a || b` on strings: empty string is falsy. -/
def jsOrStr (a : Option String) (b : String) : String :=
  match a with
  | none => b
  | some s => if s = "" then b else s

/-- Rendering of a possibly-NaN number inside a template literal. -/
def showJsNum : Option ℚ → String
  | none => "NaN"
  | some q => toString q

/-- `determineSeverity(description)`: keyword classification, first match wins. -/
def determineSeverity (description : String) : Severity :=
  let text := description.toLower
  if strIncludes text "attack" || strIncludes text "armed" ||
      strIncludes text "hostage" || strIncludes text "fire" then
    Severity.critical
  else if strIncludes text "boarding" || strIncludes text "robbery" ||
      strIncludes text "attempted" then
    Severity.high
  else if strIncludes text "suspicious" || strIncludes text "approach" then
    Severity.medium
  else
    Severity.low

/-- One element of the raw ReCAAP payload (`data.data[i]`), after the
`parseFloat` of its coordinate fields (`none` codes `NaN`). -/
structure ReCAAP_RawIncident where
  id : String
  subRegionName : Option String
  description : String
  remarks : Option String
  latitude : Option ℚ
  longitude : Option ℚ
  date : String
  deriving Repr, DecidableEq

/-- The per-incident mapping step of `fetchReCAAP_Incidents` (ISO date
re-rendering abstracted to the carried date string). -/
def recaapToIncident (r : ReCAAP_RawIncident) : SecurityIncident :=
  { id := "recaap_" ++ r.id
    type := jsOrStr r.subRegionName "security"
    description := jsOrStr (some r.description) (r.remarks.getD "")
    location := showJsNum r.latitude ++ ", " ++ showJsNum r.longitude
    latitude := r.latitude
    longitude := r.longitude
    date := r.date
    severity := determineSeverity r.description
    status := "reported"
    source := "ReCAAP ISC"
    timestamp := r.date }

/-- `fetchReCAAP_Incidents` normalize step: take the first 100 raw entries,
map them, and drop entries whose parsed latitude or longitude is `NaN`. -/
def normalizeIncidents (raws : List ReCAAP_RawIncident) : List SecurityIncident :=
  ((raws.take 100).map recaapToIncident).filter
    (fun i => i.latitude.isSome && i.longitude.isSome)

/-- A geographic bounding rectangle (`MapBounds`). -/
structure MapBounds where
  minLat : ℚ
  maxLat : ℚ
  minLon : ℚ
  maxLon : ℚ
  deriving Repr, DecidableEq

/-- The bounds filter of `getSecurityIncidents`; a JavaScript comparison
against `NaN` is false, so a `none` coordinate fails the test. -/
def incidentInBounds (b : MapBounds) (i : SecurityIncident) : Bool :=
  match i.latitude, i.longitude with
  | some la, some lo => b.minLat ≤ la && la ≤ b.maxLat && b.minLon ≤ lo && lo ≤ b.maxLon
  | _, _ => false

/-- `cacheKey = 'security_incidents'`. -/
def securityCacheKey : String := "security_incidents"

/-- `cacheTimeout = 30 * 60 * 1000`. -/
def securityCacheTimeout : Nat := 1800000

/-- The fetch-and-cache path of `getSecurityIncidents` (the body of its
`try`/`catch`): on success normalize, apply the bounds filter and cache the
result; on failure serve the stale cache if present, else an empty list. -/
def getSecurityIncidentsFetch (cache : SvcCache (List SecurityIncident)) (now : Nat)
    (bounds : Option MapBounds) (fetchResult : Except String (List ReCAAP_RawIncident)) :
    List SecurityIncident × SvcCache (List SecurityIncident) :=
  match fetchResult with
  | Except.ok raws =>
      let incidents := normalizeIncidents raws
      let filtered :=
        match bounds with
        | some b => incidents.filter (incidentInBounds b)
        | none => incidents
      (filtered, cacheSet cache securityCacheKey ⟨filtered, now⟩)
  | Except.error _ =>
      match cacheGet cache securityCacheKey with
      | some cached => (cached.data, cache)
      | none => ([], cache)

/-- `getSecurityIncidents(bounds)`: fresh-cache short-circuit, then the
fetch path. -/
def getSecurityIncidents (cache : SvcCache (List SecurityIncident)) (now : Nat)
    (bounds : Option MapBounds) (fetchResult : Except String (List ReCAAP_RawIncident)) :
    List SecurityIncident × SvcCache (List SecurityIncident) :=
  if isCacheValid cache securityCacheTimeout securityCacheKey now then
    match cacheGet cache securityCacheKey with
    | some cached => (cached.data, cache)
    | none => getSecurityIncidentsFetch cache now bounds fetchResult
  else
    getSecurityIncidentsFetch cache now bounds fetchResult

/-- A raw incident whose parsed latitude is the finite but out-of-range 999. -/
def rawOutOfRange : ReCAAP_RawIncident :=
  { id := "1"
    subRegionName := some "SEA"
    description := "robbery reported"
    remarks := none
    latitude := some 999
    longitude := some 0
    date := "2026-01-01" }

/-- Counterexample for C3 as stated: the normalize step only discards `NaN`
coordinates, so an entity with finite latitude 999 — outside `[-90, 90]` —
survives into the returned collection. -/
theorem normalize_keeps_out_of_range :
    recaapToIncident rawOutOfRange ∈ normalizeIncidents [rawOutOfRange] ∧
    (recaapToIncident rawOutOfRange).latitude = some 999 ∧ ¬ ((999 : ℚ) ≤ 90) := by
  refine ⟨?_, rfl, by norm_num⟩
  rw [show normalizeIncidents [rawOutOfRange] = [recaapToIncident rawOutOfRange] from rfl]
  exact List.mem_singleton.mpr rfl

/-- Claim C3 (amended): every entity returned by the normalize step has
non-`NaN` parsed coordinates — entries whose latitude or longitude parses to
`NaN` are discarded — but no range or finiteness validation is applied. -/
theorem normalize_discards_nan (raws : List ReCAAP_RawIncident) (i : SecurityIncident)
    (hi : i ∈ normalizeIncidents raws) :
    i.latitude.isSome = true ∧ i.longitude.isSome = true := by
  have h := (List.mem_filter.mp hi).2
  simp only [Bool.and_eq_true] at h
  exact h

/-- Witness for C3 (amended) at a concrete one-element payload. -/
theorem normalize_discards_nan_witness :
    (recaapToIncident rawOutOfRange).latitude.isSome = true ∧
    (recaapToIncident rawOutOfRange).longitude.isSome = true :=
  normalize_discards_nan [rawOutOfRange] (recaapToIncident rawOutOfRange)
    (by rw [show normalizeIncidents [rawOutOfRange] = [recaapToIncident rawOutOfRange] from rfl]
        exact List.mem_singleton.mpr rfl)

/-! ### WeatherService (`weather-service.ts`)

`getCurrentWeather` serves a fresh cache hit, otherwise fetches, normalizes
and caches; on any failure it throws a plain `ServiceError` object — it does
not fall back to the stale cache.  Rate limiting (verified separately above)
does not affect the cache/error logic and is elided here. -/

/-- The `ServiceError` object thrown by the weather service. -/
structure ServiceError where
  service : String
  message : String
  timestamp : Nat
  deriving Repr, DecidableEq

/-- One element of the OpenWeather `weather` array (only `description` is read). -/
structure OWDescription where
  description : String
  deriving Repr, DecidableEq

/-- `data.main`. -/
structure OWMain where
  temp : ℚ
  feels_like : ℚ
  pressure : ℚ
  humidity : ℚ
  deriving Repr, DecidableEq

/-- `data.wind`. -/
structure OWWind where
  speed : ℚ
  deg : ℚ
  gust : Option ℚ
  deriving Repr, DecidableEq

/-- `data.sys` (only `country` is read). -/
structure OWSys where
  country : String
  deriving Repr, DecidableEq

/-- The parsed OpenWeather response, restricted to the fields the service
reads.  `clouds` is `clouds.all`, `rain1h` is `rain?.['1h']`, `waves` is
`waves?.height`. -/
structure OpenWeatherResponse where
  weather : List OWDescription
  main : OWMain
  visibility : ℚ
  wind : OWWind
  clouds : ℚ
  rain1h : Option ℚ
  waves : Option ℚ
  timestamp : Nat
  name : String
  sys : OWSys
  deriving Repr, DecidableEq

/-- `cacheTimeout = 10 * 60 * 1000`. -/
def weatherCacheTimeout : Nat := 600000

/-- `` cacheKey = `weather_current_${latitude}_${longitude}` ``. -/
def weatherCacheKey (lat lon : ℚ) : String :=
  "weather_current_" ++ toString lat ++ "_" ++ toString lon

/-- The normalization of a successful response into `WeatherData`
(`toISOString` abstracted to epoch milliseconds). -/
def buildWeatherData (lat lon : ℚ) (data : OpenWeatherResponse) : WeatherData :=
  { id := "weather_" ++ toString lat ++ "_" ++ toString lon
    latitude := lat
    longitude := lon
    temperature := data.main.temp
    feelsLike := data.main.feels_like
    humidity := data.main.humidity
    pressure := data.main.pressure
    windSpeed := data.wind.speed
    windDirection := data.wind.deg
    windGust := data.wind.gust.getD 0
    description := jsOrStr (data.weather.head?.map (fun w => w.description)) "unknown"
    clouds := data.clouds
    visibility := data.visibility
    rain := data.rain1h.getD 0
    waves := data.waves.getD 0
    timestamp := data.timestamp * 1000
    location := data.name ++ ", " ++ data.sys.country
    source := "OpenWeather" }

/-- The fetch path of `getCurrentWeather` (body of its `try`/`catch`): on
success normalize and cache; on failure throw a `ServiceError`. -/
def weatherFetch (cache : SvcCache WeatherData) (now : Nat) (lat lon : ℚ) :
    Except String OpenWeatherResponse → Except ServiceError (WeatherData × SvcCache WeatherData)
  | Except.ok data =>
      let weather := buildWeatherData lat lon data
      Except.ok (weather, cacheSet cache (weatherCacheKey lat lon) ⟨weather, now⟩)
  | Except.error msg => Except.error ⟨"OpenWeather", msg, now⟩

/-- `getCurrentWeather(latitude, longitude)`: fresh-cache short-circuit,
then the fetch path. -/
def getCurrentWeather (cache : SvcCache WeatherData) (now : Nat) (lat lon : ℚ)
    (fetchResult : Except String OpenWeatherResponse) :
    Except ServiceError (WeatherData × SvcCache WeatherData) :=
  if isCacheValid cache weatherCacheTimeout (weatherCacheKey lat lon) now then
    match cacheGet cache (weatherCacheKey lat lon) with
    | some cached => Except.ok (cached.data, cache)
    | none => weatherFetch cache now lat lon fetchResult
  else
    weatherFetch cache now lat lon fetchResult

/-! ### Orchestrator (`MaritimeMonitorApp.loadDataForBounds`)

The vessel tracker's fetch is opaque here (its module is outside the
verified sources); its outcome is an input.  A thrown value is either an
`Error` (whose `.message` is reported) or a plain object such as the weather
service's `ServiceError` (which `String(error)` renders as
`"[object Object]"`). -/

/-- A JavaScript thrown value as observed by a `catch` block. -/
inductive JsException where
  | fromError (message : String)
  | fromServiceError (e : ServiceError)
  deriving Repr, DecidableEq

/-- `error instanceof Error ? error.message : String(error)`. -/
def jsErrorMessage : JsException → String
  | JsException.fromError m => m
  | JsException.fromServiceError _ => "[object Object]"

/-- `loadDataForBounds(bounds)`: sequentially refresh vessels, incidents and
weather for the enabled layers, pushing each result into the store as it
arrives; any rejection jumps to the `catch`, which appends one alert — so the
function always returns a store state and never re-throws. -/
def loadDataForBounds (st : StoreState) (bounds : MapBounds)
    (vres : Except JsException (List Vessel))
    (secCache : SvcCache (List SecurityIncident))
    (secFetch : Except String (List ReCAAP_RawIncident))
    (wCache : SvcCache WeatherData)
    (wFetch : Except String OpenWeatherResponse)
    (now : Nat) : StoreState :=
  let afterVessels : Except JsException StoreState :=
    if st.activeLayers.vessels then
      match vres with
      | Except.ok vs => Except.ok (setVessels st vs now)
      | Except.error e => Except.error e
    else
      Except.ok st
  match afterVessels with
  | Except.error e => addAlert st ("Error loading data: " ++ jsErrorMessage e)
  | Except.ok s1 =>
      let s2 :=
        if st.activeLayers.security then
          setIncidents s1 (getSecurityIncidents secCache now (some bounds) secFetch).1 now
        else s1
      if st.activeLayers.weather then
        let centerLat := (bounds.minLat + bounds.maxLat) / 2
        let centerLon := (bounds.minLon + bounds.maxLon) / 2
        match getCurrentWeather wCache now centerLat centerLon wFetch with
        | Except.ok (w, _) => setError (addWeather s2 [w]) none
        | Except.error se =>
            addAlert s2 ("Error loading data: " ++ jsErrorMessage (JsException.fromServiceError se))
      else
        setError s2 none

/-- A concrete cached weather value for the counterexample below. -/
def cexWeatherValue : WeatherData :=
  { id := "weather_5_6", latitude := 5, longitude := 6, temperature := 20
    feelsLike := 19, humidity := 60, pressure := 1013, windSpeed := 3
    windDirection := 90, windGust := 0, description := "clear sky", clouds := 0
    visibility := 10000, rain := 0, waves := 0, timestamp := 0
    location := "Somewhere, SG", source := "OpenWeather" }

/-- A weather cache holding a stale entry (inserted at time 0) for the
point (5, 6). -/
def cexWeatherCache : SvcCache WeatherData :=
  cacheSet [] (weatherCacheKey 5 6) ⟨cexWeatherValue, 0⟩

/-- Counterexample for C1 as stated: a value cached by an earlier successful
weather fetch exists, the remote fetch fails, yet `getCurrentWeather` rejects
with a `ServiceError` instead of returning the cached value. -/
theorem weather_no_stale_fallback :
    cacheGet cexWeatherCache (weatherCacheKey 5 6) = some ⟨cexWeatherValue, 0⟩ ∧
    getCurrentWeather cexWeatherCache 10000000 5 6
        (Except.error "OpenWeather API error: 500") =
      Except.error ⟨"OpenWeather", "OpenWeather API error: 500", 10000000⟩ := by
  constructor
  · rfl
  · rfl

/-- Claim C1 (amended): on fetch failure the security-incident client serves
its cached value ignoring freshness (or an empty collection when no cache
exists) and never rejects; the weather client instead rejects with a
`ServiceError` and serves no stale fallback; and the Orchestrator's
`loadDataForBounds` catches such a rejection, appending one alert (rendered
`"[object Object]"` for the plain thrown object) — so the failure does not
propagate uncaught past the Orchestrator. -/
theorem stale_fallback_amended
    (secCache : SvcCache (List SecurityIncident)) (now : Nat) (bounds : MapBounds)
    (err : String) (entry : SvcCacheEntry (List SecurityIncident))
    (wCache : SvcCache WeatherData) (msg : String)
    (st : StoreState) (vs : List Vessel)
    (secFetch : Except String (List ReCAAP_RawIncident))
    (hentry : cacheGet secCache securityCacheKey = some entry)
    (hwstale :
      isCacheValid wCache weatherCacheTimeout
        (weatherCacheKey ((bounds.minLat + bounds.maxLat) / 2)
          ((bounds.minLon + bounds.maxLon) / 2)) now = false)
    (hlayers : st.activeLayers.vessels = true ∧ st.activeLayers.security = true ∧
      st.activeLayers.weather = true) :
    getSecurityIncidents secCache now (some bounds) (Except.error err) = (entry.data, secCache) ∧
    (∀ (c : SvcCache (List SecurityIncident)), cacheGet c securityCacheKey = none →
      getSecurityIncidents c now (some bounds) (Except.error err) = ([], c)) ∧
    getCurrentWeather wCache now ((bounds.minLat + bounds.maxLat) / 2)
        ((bounds.minLon + bounds.maxLon) / 2) (Except.error msg) =
      Except.error ⟨"OpenWeather", msg, now⟩ ∧
    loadDataForBounds st bounds (Except.ok vs) secCache secFetch wCache
        (Except.error msg) now =
      addAlert
        (setIncidents (setVessels st vs now)
          (getSecurityIncidents secCache now (some bounds) secFetch).1 now)
        "Error loading data: [object Object]" := by
  obtain ⟨hlv, hls, hlw⟩ := hlayers
  have hsec : getSecurityIncidents secCache now (some bounds) (Except.error err) =
      (entry.data, secCache) := by
    by_cases hval : isCacheValid secCache securityCacheTimeout securityCacheKey now = true
    · simp only [getSecurityIncidents, hval, if_true, hentry]
    · simp only [getSecurityIncidents, Bool.not_eq_true] at hval ⊢
      rw [hval]
      simp only [Bool.false_eq_true, if_false, getSecurityIncidentsFetch, hentry]
  have hweather : getCurrentWeather wCache now ((bounds.minLat + bounds.maxLat) / 2)
      ((bounds.minLon + bounds.maxLon) / 2) (Except.error msg) =
      Except.error ⟨"OpenWeather", msg, now⟩ := by
    simp only [getCurrentWeather, hwstale, Bool.false_eq_true, if_false, weatherFetch]
  refine ⟨hsec, ?_, hweather, ?_⟩
  · intro c hc
    by_cases hval : isCacheValid c securityCacheTimeout securityCacheKey now = true
    · simp only [isCacheValid, hc] at hval
      exact absurd hval (by decide)
    · simp only [getSecurityIncidents, Bool.not_eq_true] at hval ⊢
      rw [hval]
      simp only [Bool.false_eq_true, if_false, getSecurityIncidentsFetch, hc]
  · simp only [loadDataForBounds, hlv, hls, hlw, if_true, hweather]
    rfl

/-- Witness for C1 (amended) at concrete inputs: a one-entry incident cache,
a stale-free weather cache, the code's default Indian Ocean bounds, and a
failing weather fetch. -/
theorem stale_fallback_amended_witness :
    getSecurityIncidents (cacheSet [] securityCacheKey ⟨[], 0⟩) 5
        (some ⟨-20, 20, 40, 100⟩) (Except.error "boom") =
      ([], cacheSet [] securityCacheKey ⟨[], 0⟩) ∧
    loadDataForBounds initialState ⟨-20, 20, 40, 100⟩ (Except.ok [])
        (cacheSet [] securityCacheKey ⟨[], 0⟩) (Except.error "boom") [] (Except.error "down") 5 =
      addAlert
        (setIncidents (setVessels initialState [] 5)
          (getSecurityIncidents (cacheSet [] securityCacheKey ⟨[], 0⟩) 5
            (some ⟨-20, 20, 40, 100⟩) (Except.error "boom")).1 5)
        "Error loading data: [object Object]" := by
  have h := stale_fallback_amended (cacheSet [] securityCacheKey ⟨[], 0⟩) 5
    ⟨-20, 20, 40, 100⟩ "boom" ⟨[], 0⟩ [] "down" initialState []
    (Except.error "boom") (by rfl) (by rfl) ⟨rfl, rfl, rfl⟩
  exact ⟨h.1, h.2.2.2⟩

/-! ### MapController reconciliation (`map-controller.ts`)

`updateVessels` / `updateWeather` / `updateIncidents` share the same shape:
for each entity of the batch, update the existing marker in place when its
id is already rendered, otherwise create a marker; afterwards, remove every
rendered marker whose id is not in the batch's `visibleIds` set.  A marker's
`gen` is an allocation token identifying the underlying visual object:
updates preserve it, creations consume fresh tokens. -/

/-- An operation the reconciler applies to the visual surface. -/
inductive RecOp where
  | create (id : String)
  | update (id : String)
  | remove (id : String)
  deriving Repr, DecidableEq

/-- `true` exactly on `remove` operations. -/
def RecOp.isRemove : RecOp → Bool
  | RecOp.remove _ => true
  | _ => false

/-- A rendered marker: allocation token plus kind-specific visual state. -/
structure Marker (β : Type) where
  gen : Nat
  data : β
  deriving Repr, DecidableEq

/-- State threaded through the per-entity `forEach` loop. -/
structure RecAcc (β : Type) where
  markers : List (String × Marker β)
  ops : List RecOp
  nextGen : Nat
  deriving Repr, DecidableEq

/-- One iteration of the per-entity loop. -/
def recStep {α β : Type} (ident : α → String) (mkNew : α → β) (upd : β → α → β)
    (acc : RecAcc β) (x : α) : RecAcc β :=
  match assocGet acc.markers (ident x) with
  | some m =>
      { markers := assocSet acc.markers (ident x) ⟨m.gen, upd m.data x⟩
        ops := acc.ops ++ [RecOp.update (ident x)]
        nextGen := acc.nextGen }
  | none =>
      { markers := assocSet acc.markers (ident x) ⟨acc.nextGen, mkNew x⟩
        ops := acc.ops ++ [RecOp.create (ident x)]
        nextGen := acc.nextGen + 1 }

/-- The full reconciliation pass: the create/update loop over the batch,
then removal of every marker whose id is absent from `visibleIds`. -/
def reconcile {α β : Type} (ident : α → String) (mkNew : α → β) (upd : β → α → β)
    (ms : List (String × Marker β)) (xs : List α) (g : Nat) : RecAcc β :=
  let a := xs.foldl (recStep ident mkNew upd) ⟨ms, [], g⟩
  let visible := xs.map ident
  let removes := (assocKeys a.markers).filter (fun k => decide (k ∉ visible))
  { markers := a.markers.filter (fun p => decide (p.1 ∈ visible))
    ops := a.ops ++ removes.map RecOp.remove
    nextGen := a.nextGen }

/-- Characterization of the per-entity loop for a batch with pairwise
distinct ids: the op sequence, the marker keys, the updated-marker values
and the frame on untouched keys. -/
theorem recFold_spec {α β : Type} (ident : α → String) (mkNew : α → β) (upd : β → α → β)
    (xs : List α) :
    ∀ (ms : List (String × Marker β)) (ops0 : List RecOp) (g : Nat),
    (xs.map ident).Nodup →
    (assocKeys (xs.foldl (recStep ident mkNew upd) ⟨ms, ops0, g⟩).markers =
      assocKeys ms ++ (xs.filter (fun x => decide (ident x ∉ assocKeys ms))).map ident) ∧
    ((xs.foldl (recStep ident mkNew upd) ⟨ms, ops0, g⟩).ops =
      ops0 ++ xs.map (fun x =>
        if ident x ∈ assocKeys ms then RecOp.update (ident x) else RecOp.create (ident x))) ∧
    (∀ x ∈ xs, ident x ∈ assocKeys ms →
      ∃ m, assocGet ms (ident x) = some m ∧
        assocGet (xs.foldl (recStep ident mkNew upd) ⟨ms, ops0, g⟩).markers (ident x) =
          some ⟨m.gen, upd m.data x⟩) ∧
    (∀ k, k ∉ xs.map ident →
      assocGet (xs.foldl (recStep ident mkNew upd) ⟨ms, ops0, g⟩).markers k = assocGet ms k) := by
  induction xs with
  | nil =>
      intro ms ops0 g _
      refine ⟨by simp, by simp, by simp, by simp [List.foldl_nil]⟩
  | cons x xs ih =>
      intro ms ops0 g hnodup
      have hx_not : ident x ∉ xs.map ident := by
        simp only [List.map_cons, List.nodup_cons] at hnodup
        exact hnodup.1
      have hxs_nodup : (xs.map ident).Nodup := by
        simp only [List.map_cons, List.nodup_cons] at hnodup
        exact hnodup.2
      by_cases hmem : ident x ∈ assocKeys ms
      · -- the entity is already rendered: in-place update
        obtain ⟨m, hget⟩ : ∃ m, assocGet ms (ident x) = some m := by
          have := (assocGet_isSome_iff_mem ms (ident x)).mpr hmem
          exact Option.isSome_iff_exists.mp this
        have hstep : recStep ident mkNew upd ⟨ms, ops0, g⟩ x =
            ⟨assocSet ms (ident x) ⟨m.gen, upd m.data x⟩,
              ops0 ++ [RecOp.update (ident x)], g⟩ := by
          simp only [recStep, hget]
        have hkeys1 : assocKeys (assocSet ms (ident x) ⟨m.gen, upd m.data x⟩) = assocKeys ms :=
          assocKeys_set_of_mem ms (ident x) _ hmem
        have hfold : (x :: xs).foldl (recStep ident mkNew upd) ⟨ms, ops0, g⟩ =
            xs.foldl (recStep ident mkNew upd)
              ⟨assocSet ms (ident x) ⟨m.gen, upd m.data x⟩,
                ops0 ++ [RecOp.update (ident x)], g⟩ := by
          rw [List.foldl_cons, hstep]
        obtain ⟨ihK, ihO, ihV, ihF⟩ :=
          ih (assocSet ms (ident x) ⟨m.gen, upd m.data x⟩)
            (ops0 ++ [RecOp.update (ident x)]) g hxs_nodup
        refine ⟨?_, ?_, ?_, ?_⟩
        · rw [hfold, ihK, hkeys1]
          rw [List.filter_cons_of_neg (by simpa using hmem)]
        · rw [hfold, ihO]
          have hmaps : xs.map (fun y =>
              if ident y ∈ assocKeys (assocSet ms (ident x) ⟨m.gen, upd m.data x⟩) then
                RecOp.update (ident y) else RecOp.create (ident y)) =
              xs.map (fun y =>
                if ident y ∈ assocKeys ms then RecOp.update (ident y) else RecOp.create (ident y)) := by
            apply List.map_congr_left
            intro y _
            rw [hkeys1]
          rw [hmaps, List.map_cons, if_pos hmem]
          simp [List.append_assoc]
        · intro y hy hyk
          rcases List.mem_cons.mp hy with hy | hy
          · subst hy
            refine ⟨m, hget, ?_⟩
            rw [hfold, ihF (ident y) hx_not, assocGet_set_self]
          · have hne : ident y ≠ ident x := by
              intro he
              exact hx_not (he ▸ (List.mem_map.mpr ⟨y, hy, rfl⟩))
            have hyk1 : ident y ∈ assocKeys (assocSet ms (ident x) ⟨m.gen, upd m.data x⟩) := by
              rw [hkeys1]; exact hyk
            obtain ⟨m', hm'1, hm'2⟩ := ihV y hy hyk1
            rw [assocGet_set_other ms (ident x) (ident y) _ hne] at hm'1
            refine ⟨m', hm'1, ?_⟩
            rw [hfold]
            exact hm'2
        · intro k hk
          have hkx : k ≠ ident x := by
            intro he
            exact hk (by simp [he])
          have hkxs : k ∉ xs.map ident := by
            intro he
            exact hk (by simp [he])
          rw [hfold, ihF k hkxs, assocGet_set_other ms (ident x) k _ hkx]
      · -- the entity is new: create a marker
        have hget : assocGet ms (ident x) = none := by
          cases hcase : assocGet ms (ident x) with
          | none => rfl
          | some m =>
              exfalso
              exact hmem ((assocGet_isSome_iff_mem ms (ident x)).mp (by rw [hcase]; rfl))
        have hstep : recStep ident mkNew upd ⟨ms, ops0, g⟩ x =
            ⟨assocSet ms (ident x) ⟨g, mkNew x⟩,
              ops0 ++ [RecOp.create (ident x)], g + 1⟩ := by
          simp only [recStep, hget]
        have hkeys1 : assocKeys (assocSet ms (ident x) ⟨g, mkNew x⟩) =
            assocKeys ms ++ [ident x] :=
          assocKeys_set_of_not_mem ms (ident x) _ hmem
        have hfold : (x :: xs).foldl (recStep ident mkNew upd) ⟨ms, ops0, g⟩ =
            xs.foldl (recStep ident mkNew upd)
              ⟨assocSet ms (ident x) ⟨g, mkNew x⟩,
                ops0 ++ [RecOp.create (ident x)], g + 1⟩ := by
          rw [List.foldl_cons, hstep]
        obtain ⟨ihK, ihO, ihV, ihF⟩ :=
          ih (assocSet ms (ident x) ⟨g, mkNew x⟩)
            (ops0 ++ [RecOp.create (ident x)]) (g + 1) hxs_nodup
        have hmem_iff : ∀ y ∈ xs,
            (ident y ∈ assocKeys (assocSet ms (ident x) ⟨g, mkNew x⟩)) ↔
              (ident y ∈ assocKeys ms) := by
          intro y hy
          rw [hkeys1, List.mem_append, List.mem_singleton]
          constructor
          · rintro (h | h)
            · exact h
            · exact absurd (h ▸ (List.mem_map.mpr ⟨y, hy, rfl⟩)) hx_not
          · exact fun h => Or.inl h
        refine ⟨?_, ?_, ?_, ?_⟩
        · rw [hfold, ihK, hkeys1]
          have hfx : xs.filter (fun y => decide (ident y ∉ assocKeys ms ++ [ident x])) =
              xs.filter (fun y => decide (ident y ∉ assocKeys ms)) := by
            apply List.filter_congr
            intro y hy
            simp only [decide_eq_decide, List.mem_append, List.mem_singleton]
            constructor
            · intro hno hin
              exact hno (Or.inl hin)
            · rintro hno (hin | hin)
              · exact hno hin
              · exact hx_not (hin ▸ (List.mem_map.mpr ⟨y, hy, rfl⟩))
          rw [hfx]
          rw [List.filter_cons_of_pos (by simpa using hmem)]
          simp [List.append_assoc]
        · rw [hfold, ihO]
          have hmaps : xs.map (fun y =>
              if ident y ∈ assocKeys (assocSet ms (ident x) ⟨g, mkNew x⟩) then
                RecOp.update (ident y) else RecOp.create (ident y)) =
              xs.map (fun y =>
                if ident y ∈ assocKeys ms then RecOp.update (ident y) else RecOp.create (ident y)) := by
            apply List.map_congr_left
            intro y hy
            by_cases hcase : ident y ∈ assocKeys ms
            · rw [if_pos hcase, if_pos ((hmem_iff y hy).mpr hcase)]
            · rw [if_neg hcase, if_neg (fun hc => hcase ((hmem_iff y hy).mp hc))]
          rw [hmaps, List.map_cons, if_neg hmem]
          simp [List.append_assoc]
        · intro y hy hyk
          rcases List.mem_cons.mp hy with hy | hy
          · subst hy
            exact absurd hyk hmem
          · have hne : ident y ≠ ident x := by
              intro he
              exact hx_not (he ▸ (List.mem_map.mpr ⟨y, hy, rfl⟩))
            obtain ⟨m', hm'1, hm'2⟩ := ihV y hy ((hmem_iff y hy).mpr hyk)
            rw [assocGet_set_other ms (ident x) (ident y) _ hne] at hm'1
            refine ⟨m', hm'1, ?_⟩
            rw [hfold]
            exact hm'2
        · intro k hk
          have hkx : k ≠ ident x := by
            intro he
            exact hk (by simp [he])
          have hkxs : k ∉ xs.map ident := by
            intro he
            exact hk (by simp [he])
          rw [hfold, ihF k hkxs, assocGet_set_other ms (ident x) k _ hkx]

/-- The operation sequence emitted by a full reconciliation pass: one
create/update per batch entity (in batch order), followed by one remove per
previously rendered id absent from the batch. -/
theorem reconcile_ops_spec {α β : Type} (ident : α → String) (mkNew : α → β) (upd : β → α → β)
    (ms : List (String × Marker β)) (xs : List α) (g : Nat)
    (hnodup : (xs.map ident).Nodup) :
    (reconcile ident mkNew upd ms xs g).ops =
      xs.map (fun x =>
        if ident x ∈ assocKeys ms then RecOp.update (ident x) else RecOp.create (ident x)) ++
      ((assocKeys ms).filter (fun k => decide (k ∉ xs.map ident))).map RecOp.remove := by
  obtain ⟨hK, hO, _, _⟩ := recFold_spec ident mkNew upd xs ms [] g hnodup
  simp only [reconcile]
  rw [hO, hK]
  simp only [List.nil_append]
  congr 1
  rw [List.filter_append]
  have hcreated : (((xs.filter (fun x => decide (ident x ∉ assocKeys ms))).map ident).filter
      (fun k => decide (k ∉ xs.map ident))) = [] := by
    rw [List.filter_eq_nil_iff]
    intro k hk
    obtain ⟨x, hx, hkx⟩ := List.mem_map.mp hk
    have hxmem : x ∈ xs := List.mem_of_mem_filter hx
    simp only [decide_eq_true_eq, Decidable.not_not]
    exact hkx ▸ (List.mem_map.mpr ⟨x, hxmem, rfl⟩)
  rw [hcreated, List.append_nil]

/-- The markers left by a reconciliation pass all carry ids from the batch. -/
theorem reconcile_keys_subset {α β : Type} (ident : α → String) (mkNew : α → β) (upd : β → α → β)
    (ms : List (String × Marker β)) (xs : List α) (g : Nat) (k : String)
    (hk : k ∈ assocKeys (reconcile ident mkNew upd ms xs g).markers) :
    k ∈ xs.map ident := by
  simp only [reconcile, assocKeys] at hk
  obtain ⟨p, hp, hpk⟩ := List.mem_map.mp hk
  have := (List.mem_filter.mp hp).2
  simp only [decide_eq_true_eq] at this
  exact hpk ▸ this

/-- Value of an updated marker after the full pass (including the removal
filter, which keeps every batch id). -/
theorem reconcile_get_updated {α β : Type} (ident : α → String) (mkNew : α → β) (upd : β → α → β)
    (ms : List (String × Marker β)) (xs : List α) (g : Nat) (x : α)
    (hnodup : (xs.map ident).Nodup) (hx : x ∈ xs) (hmem : ident x ∈ assocKeys ms) :
    ∃ m, assocGet ms (ident x) = some m ∧
      assocGet (reconcile ident mkNew upd ms xs g).markers (ident x) =
        some ⟨m.gen, upd m.data x⟩ := by
  obtain ⟨_, _, hV, _⟩ := recFold_spec ident mkNew upd xs ms [] g hnodup
  obtain ⟨m, hm1, hm2⟩ := hV x hx hmem
  refine ⟨m, hm1, ?_⟩
  simp only [reconcile, assocGet]
  rw [find?_filter_of_imp]
  · exact hm2
  · intro p _ hq
    simp only [decide_eq_true_eq] at hq ⊢
    exact hq ▸ (List.mem_map.mpr ⟨x, hx, rfl⟩)

/-- Severity rendered into popup text. -/
def severityText : Severity → String
  | Severity.critical => "critical"
  | Severity.high => "high"
  | Severity.medium => "medium"
  | Severity.low => "low"

/-- `createVesselPopup` (HTML wrappers and number formatting condensed;
the content is the listed fields of the vessel). -/
def createVesselPopup (v : Vessel) : String :=
  "<h3>" ++ v.name ++ "</h3>" ++
  "<p>MMSI: " ++ v.mmsi ++ "</p>" ++
  "<p>Type: " ++ v.type ++ "</p>" ++
  "<p>Speed: " ++ toString v.speed ++ " knots</p>" ++
  "<p>Course: " ++ toString v.course ++ "</p>" ++
  "<p>Position: " ++ toString v.latitude ++ ", " ++ toString v.longitude ++ "</p>" ++
  "<p>Updated: " ++ v.timestamp ++ "</p>"

/-- `createIncidentPopup`. -/
def createIncidentPopup (i : SecurityIncident) : String :=
  "<h3>" ++ i.description ++ "</h3>" ++
  "<p>Type: " ++ i.type ++ "</p>" ++
  "<p>Severity: " ++ severityText i.severity ++ "</p>" ++
  "<p>Location: " ++ i.location ++ "</p>" ++
  "<p>Date: " ++ i.date ++ "</p>" ++
  "<p>Source: " ++ i.source ++ "</p>"

/-- `createWeatherPopup`. -/
def createWeatherPopup (w : WeatherData) : String :=
  "<h3>" ++ w.location ++ "</h3>" ++
  "<p>Condition: " ++ w.description ++ "</p>" ++
  "<p>Temperature: " ++ toString w.temperature ++ " C</p>" ++
  "<p>Wind: " ++ toString w.windSpeed ++ " m/s from " ++ toString w.windDirection ++ "</p>" ++
  "<p>Humidity: " ++ toString w.humidity ++ "%</p>" ++
  "<p>Pressure: " ++ toString w.pressure ++ " hPa</p>" ++
  (if 0 < w.waves then "<p>Wave Height: " ++ toString w.waves ++ " m</p>" else "") ++
  "<p>Updated: " ++ toString w.timestamp ++ "</p>"

/-- `getVesselIcon`'s color selection. -/
def getVesselIconColor (v : Vessel) : String :=
  let color := "#3388ff"
  let color := if v.type = "cargo" then "#1e40af" else color
  let color := if v.type = "tanker" then "#dc2626" else color
  let color := if v.type = "fishing" then "#7c3aed" else color
  let color := if v.type = "military" then "#000000" else color
  if v.speed = 0 then "#fbbf24" else color

/-- `getIncidentIcon`'s color selection (the `|| '#fbbf24'` default is
unreachable over the total severity enum). -/
def getIncidentIconColor (i : SecurityIncident) : String :=
  match i.severity with
  | Severity.critical => "#dc2626"
  | Severity.high => "#ea580c"
  | Severity.medium => "#f59e0b"
  | Severity.low => "#fbbf24"

/-- `getWeatherColor`. -/
def getWeatherColor (w : WeatherData) : String :=
  if 15 < w.windSpeed then "#dc2626"
  else if 10 < w.windSpeed then "#ea580c"
  else if 5 < w.rain then "#0284c7"
  else "#22c55e"

/-- Visual state of a vessel marker. -/
structure VMarkerData where
  pos : ℚ × ℚ
  popup : String
  icon : String
  title : String
  deriving Repr, DecidableEq

/-- `L.marker(...).bindPopup(...)` for a vessel. -/
def mkVesselMarker (v : Vessel) : VMarkerData :=
  { pos := (v.latitude, v.longitude)
    popup := createVesselPopup v
    icon := getVesselIconColor v
    title := v.name }

/-- The update branch of `updateVessels`: `setLatLng` + `setPopupContent`. -/
def updVesselMarker (d : VMarkerData) (v : Vessel) : VMarkerData :=
  { d with pos := (v.latitude, v.longitude), popup := createVesselPopup v }

/-- `updateVessels(vessels)`. -/
def updateVesselsModel (ms : List (String × Marker VMarkerData)) (vs : List Vessel)
    (g : Nat) : RecAcc VMarkerData :=
  reconcile Vessel.id mkVesselMarker updVesselMarker ms vs g

/-- Visual state of an incident marker (coordinates may be `NaN`-coded). -/
structure IMarkerData where
  pos : Option ℚ × Option ℚ
  popup : String
  icon : String
  title : String
  deriving Repr, DecidableEq

/-- `L.marker(...)` for an incident. -/
def mkIncidentMarker (i : SecurityIncident) : IMarkerData :=
  { pos := (i.latitude, i.longitude)
    popup := createIncidentPopup i
    icon := getIncidentIconColor i
    title := i.description }

/-- The update branch of `updateIncidents`: only `setPopupContent` — the
marker is not repositioned. -/
def updIncidentMarker (d : IMarkerData) (i : SecurityIncident) : IMarkerData :=
  { d with popup := createIncidentPopup i }

/-- `updateIncidents(incidents)`. -/
def updateIncidentsModel (ms : List (String × Marker IMarkerData)) (is : List SecurityIncident)
    (g : Nat) : RecAcc IMarkerData :=
  reconcile SecurityIncident.id mkIncidentMarker updIncidentMarker ms is g

/-- Visual state of a weather circle marker. -/
structure WMarkerData where
  pos : ℚ × ℚ
  radius : ℚ
  color : String
  popup : String
  deriving Repr, DecidableEq

/-- `Math.min(Math.max(data.windSpeed * 100, 1000), 5000)`. -/
def weatherRadius (w : WeatherData) : ℚ :=
  min (max (w.windSpeed * 100) 1000) 5000

/-- `L.circleMarker(...)` for a weather observation. -/
def mkWeatherMarker (w : WeatherData) : WMarkerData :=
  { pos := (w.latitude, w.longitude)
    radius := weatherRadius w
    color := getWeatherColor w
    popup := createWeatherPopup w }

/-- The update branch of `updateWeather`: `setLatLng` + `setStyle` +
`setPopupContent` (the radius is left as created). -/
def updWeatherMarker (d : WMarkerData) (w : WeatherData) : WMarkerData :=
  { d with
    pos := (w.latitude, w.longitude)
    color := getWeatherColor w
    popup := createWeatherPopup w }

/-- `updateWeather(weatherData)`. -/
def updateWeatherModel (ms : List (String × Marker WMarkerData)) (ws : List WeatherData)
    (g : Nat) : RecAcc WMarkerData :=
  reconcile WeatherData.id mkWeatherMarker updWeatherMarker ms ws g

/-- Counterexample for C4 as stated: against an empty rendered set, a batch
carrying the same id twice makes `updateVessels` emit a create for the first
occurrence and then an update for the second (the second occurrence finds the
just-created marker in `vesselMarkers`), so an update is applied for an id
that is not in the previously rendered set — the claimed exact disjoint
partition fails on duplicate-id batches. -/
theorem reconcile_duplicate_id_cex :
    (updateVesselsModel [] [⟨"A", "m1", "Alpha", "cargo", 10, 90, 1, 2, "t1"⟩,
        ⟨"A", "m1", "Alpha", "cargo", 11, 90, 3, 4, "t2"⟩] 0).ops =
      [RecOp.create "A", RecOp.update "A"] ∧
    RecOp.update "A" ∈ (updateVesselsModel [] [⟨"A", "m1", "Alpha", "cargo", 10, 90, 1, 2, "t1"⟩,
        ⟨"A", "m1", "Alpha", "cargo", 11, 90, 3, 4, "t2"⟩] 0).ops ∧
    "A" ∉ assocKeys ([] : List (String × Marker VMarkerData)) := by
  refine ⟨rfl, ?_, by simp [assocKeys]⟩
  rw [show (updateVesselsModel [] [⟨"A", "m1", "Alpha", "cargo", 10, 90, 1, 2, "t1"⟩,
      ⟨"A", "m1", "Alpha", "cargo", 11, 90, 3, 4, "t2"⟩] 0).ops =
    [RecOp.create "A", RecOp.update "A"] from rfl]
  simp

/-- Claim C4 (amended): for every batch whose entity ids are pairwise
distinct, the reconciliation pass partitions ids into three disjoint sets —
created (in next, not previously rendered), updated (in both), removed
(previously rendered, not in next) — applies exactly those operations, and
applies every removal after all creations and updates; for a batch repeating
an id, the reconciler instead emits a create for the id's first occurrence
and an update for each later occurrence. -/
theorem reconcile_diff_spec (ms : List (String × Marker VMarkerData)) (vs : List Vessel)
    (g : Nat) (hnodup : (vs.map Vessel.id).Nodup) :
    (∀ i, RecOp.create i ∈ (updateVesselsModel ms vs g).ops ↔
      i ∈ vs.map Vessel.id ∧ i ∉ assocKeys ms) ∧
    (∀ i, RecOp.update i ∈ (updateVesselsModel ms vs g).ops ↔
      i ∈ vs.map Vessel.id ∧ i ∈ assocKeys ms) ∧
    (∀ i, RecOp.remove i ∈ (updateVesselsModel ms vs g).ops ↔
      i ∈ assocKeys ms ∧ i ∉ vs.map Vessel.id) ∧
    (∃ pre post, (updateVesselsModel ms vs g).ops = pre ++ post ∧
      (∀ op ∈ pre, op.isRemove = false) ∧ (∀ op ∈ post, op.isRemove = true)) := by
  have hops := reconcile_ops_spec Vessel.id mkVesselMarker updVesselMarker ms vs g hnodup
  have hups : updateVesselsModel ms vs g = reconcile Vessel.id mkVesselMarker updVesselMarker ms vs g := rfl
  rw [hups]
  refine ⟨?_, ?_, ?_, ?_⟩
  · intro i
    rw [hops]
    simp only [List.mem_append, List.mem_map, List.mem_filter, decide_eq_true_eq]
    constructor
    · rintro (⟨v, hv, hfv⟩ | ⟨k, ⟨hk, hknot⟩, hrem⟩)
      · by_cases hc : v.id ∈ assocKeys ms
        · rw [if_pos hc] at hfv
          cases hfv
        · rw [if_neg hc] at hfv
          have : v.id = i := by injection hfv
          subst this
          exact ⟨⟨v, hv, rfl⟩, hc⟩
      · cases hrem
    · rintro ⟨⟨v, hv, hvi⟩, hnot⟩
      subst hvi
      exact Or.inl ⟨v, hv, by rw [if_neg hnot]⟩
  · intro i
    rw [hops]
    simp only [List.mem_append, List.mem_map, List.mem_filter, decide_eq_true_eq]
    constructor
    · rintro (⟨v, hv, hfv⟩ | ⟨k, ⟨hk, hknot⟩, hrem⟩)
      · by_cases hc : v.id ∈ assocKeys ms
        · rw [if_pos hc] at hfv
          have : v.id = i := by injection hfv
          subst this
          exact ⟨⟨v, hv, rfl⟩, hc⟩
        · rw [if_neg hc] at hfv
          cases hfv
      · cases hrem
    · rintro ⟨⟨v, hv, hvi⟩, hmem⟩
      subst hvi
      exact Or.inl ⟨v, hv, by rw [if_pos hmem]⟩
  · intro i
    rw [hops]
    simp only [List.mem_append, List.mem_map, List.mem_filter, decide_eq_true_eq]
    constructor
    · rintro (⟨v, hv, hfv⟩ | ⟨k, ⟨hk, hknot⟩, hrem⟩)
      · by_cases hc : v.id ∈ assocKeys ms
        · rw [if_pos hc] at hfv
          cases hfv
        · rw [if_neg hc] at hfv
          cases hfv
      · have : k = i := by injection hrem
        subst this
        exact ⟨hk, hknot⟩
    · rintro ⟨hmem, hnot⟩
      exact Or.inr ⟨i, ⟨hmem, hnot⟩, rfl⟩
  · refine ⟨vs.map (fun v =>
        if v.id ∈ assocKeys ms then RecOp.update v.id else RecOp.create v.id),
      ((assocKeys ms).filter (fun k => decide (k ∉ vs.map Vessel.id))).map RecOp.remove,
      hops, ?_, ?_⟩
    · intro op hop
      obtain ⟨v, _, hfv⟩ := List.mem_map.mp hop
      by_cases hc : v.id ∈ assocKeys ms
      · rw [if_pos hc] at hfv
        rw [← hfv]
        rfl
      · rw [if_neg hc] at hfv
        rw [← hfv]
        rfl
    · intro op hop
      obtain ⟨k, _, hrem⟩ := List.mem_map.mp hop
      rw [← hrem]
      rfl

/-- Witness for C4 at the spec's example: previously rendered ids
`{A, B, C}`, next batch ids `{B, C, D}` — `D` is created, `B` is updated,
`A` is removed. -/
theorem reconcile_diff_spec_witness :
    RecOp.create "D" ∈ (updateVesselsModel
      [("A", ⟨0, { pos := (0, 0), popup := "a", icon := "#3388ff", title := "A" }⟩),
       ("B", ⟨1, { pos := (0, 0), popup := "b", icon := "#3388ff", title := "B" }⟩),
       ("C", ⟨2, { pos := (0, 0), popup := "c", icon := "#3388ff", title := "C" }⟩)]
      [⟨"B", "m1", "B", "cargo", 1, 2, 3, 4, "t"⟩,
       ⟨"C", "m2", "C", "cargo", 1, 2, 5, 6, "t"⟩,
       ⟨"D", "m3", "D", "cargo", 1, 2, 7, 8, "t"⟩] 3).ops ∧
    RecOp.update "B" ∈ (updateVesselsModel
      [("A", ⟨0, { pos := (0, 0), popup := "a", icon := "#3388ff", title := "A" }⟩),
       ("B", ⟨1, { pos := (0, 0), popup := "b", icon := "#3388ff", title := "B" }⟩),
       ("C", ⟨2, { pos := (0, 0), popup := "c", icon := "#3388ff", title := "C" }⟩)]
      [⟨"B", "m1", "B", "cargo", 1, 2, 3, 4, "t"⟩,
       ⟨"C", "m2", "C", "cargo", 1, 2, 5, 6, "t"⟩,
       ⟨"D", "m3", "D", "cargo", 1, 2, 7, 8, "t"⟩] 3).ops ∧
    RecOp.remove "A" ∈ (updateVesselsModel
      [("A", ⟨0, { pos := (0, 0), popup := "a", icon := "#3388ff", title := "A" }⟩),
       ("B", ⟨1, { pos := (0, 0), popup := "b", icon := "#3388ff", title := "B" }⟩),
       ("C", ⟨2, { pos := (0, 0), popup := "c", icon := "#3388ff", title := "C" }⟩)]
      [⟨"B", "m1", "B", "cargo", 1, 2, 3, 4, "t"⟩,
       ⟨"C", "m2", "C", "cargo", 1, 2, 5, 6, "t"⟩,
       ⟨"D", "m3", "D", "cargo", 1, 2, 7, 8, "t"⟩] 3).ops := by
  have h := reconcile_diff_spec
    [("A", ⟨0, { pos := (0, 0), popup := "a", icon := "#3388ff", title := "A" }⟩),
     ("B", ⟨1, { pos := (0, 0), popup := "b", icon := "#3388ff", title := "B" }⟩),
     ("C", ⟨2, { pos := (0, 0), popup := "c", icon := "#3388ff", title := "C" }⟩)]
    [⟨"B", "m1", "B", "cargo", 1, 2, 3, 4, "t"⟩,
     ⟨"C", "m2", "C", "cargo", 1, 2, 5, 6, "t"⟩,
     ⟨"D", "m3", "D", "cargo", 1, 2, 7, 8, "t"⟩] 3 (by decide)
  exact ⟨(h.1 "D").mpr (by decide), (h.2.1 "B").mpr (by decide),
    (h.2.2.1 "A").mpr (by decide)⟩

/-- An incident that moved to (7, 7) relative to its rendered marker. -/
def cexMovedIncident : SecurityIncident :=
  { id := "recaap_9"
    type := "SEA"
    description := "suspicious approach"
    location := "7, 7"
    latitude := some 7
    longitude := some 7
    date := "2026-02-01"
    severity := Severity.medium
    status := "reported"
    source := "ReCAAP ISC"
    timestamp := "2026-02-01" }

/-- Counterexample for C5 as stated: the incident reconciler's update branch
only refreshes the popup — the existing marker keeps its old position even
though the incoming entity's coordinates are (7, 7). -/
theorem incident_marker_not_repositioned :
    assocGet (updateIncidentsModel
        [("recaap_9", ⟨0, { pos := (some 5, some 5), popup := "old", icon := "#fbbf24", title := "old" }⟩)]
        [cexMovedIncident] 1).markers "recaap_9" =
      some ⟨0, { pos := (some 5, some 5)
                 popup := createIncidentPopup cexMovedIncident
                 icon := "#fbbf24"
                 title := "old" }⟩ ∧
    cexMovedIncident.latitude = some 7 ∧ cexMovedIncident.longitude = some 7 ∧
    ((some 5 : Option ℚ), (some 5 : Option ℚ)) ≠ ((some 7 : Option ℚ), (some 7 : Option ℚ)) := by
  refine ⟨rfl, rfl, rfl, by decide⟩

/-- Claim C5 (amended): for every id present both in the rendered set and in
the batch, the reconciler keeps the existing marker object (same allocation
token — never destroyed and recreated) and updates it in place; the vessel
reconciler repositions it to the entity's new coordinates and refreshes its
popup, while the incident reconciler only refreshes the popup and leaves the
position unchanged. -/
theorem update_in_place_amended
    (msV : List (String × Marker VMarkerData)) (vs : List Vessel) (gV : Nat)
    (msI : List (String × Marker IMarkerData)) (is : List SecurityIncident) (gI : Nat)
    (hnv : (vs.map Vessel.id).Nodup) (hni : (is.map SecurityIncident.id).Nodup) :
    (∀ v ∈ vs, v.id ∈ assocKeys msV →
      ∃ m, assocGet msV v.id = some m ∧
        assocGet (updateVesselsModel msV vs gV).markers v.id =
          some ⟨m.gen, updVesselMarker m.data v⟩ ∧
        (updVesselMarker m.data v).pos = (v.latitude, v.longitude) ∧
        (updVesselMarker m.data v).popup = createVesselPopup v) ∧
    (∀ i ∈ is, i.id ∈ assocKeys msI →
      ∃ m, assocGet msI i.id = some m ∧
        assocGet (updateIncidentsModel msI is gI).markers i.id =
          some ⟨m.gen, updIncidentMarker m.data i⟩ ∧
        (updIncidentMarker m.data i).pos = m.data.pos ∧
        (updIncidentMarker m.data i).popup = createIncidentPopup i) := by
  constructor
  · intro v hv hmem
    obtain ⟨m, hm1, hm2⟩ := reconcile_get_updated Vessel.id mkVesselMarker updVesselMarker
      msV vs gV v hnv hv hmem
    exact ⟨m, hm1, hm2, rfl, rfl⟩
  · intro i hi hmem
    obtain ⟨m, hm1, hm2⟩ := reconcile_get_updated SecurityIncident.id mkIncidentMarker
      updIncidentMarker msI is gI i hni hi hmem
    exact ⟨m, hm1, hm2, rfl, rfl⟩

/-- Witness for C5 (amended) at a concrete rendered vessel and incident. -/
theorem update_in_place_amended_witness :
    (∃ m, assocGet [("v1", (⟨4, { pos := (0, 0), popup := "old", icon := "#3388ff", title := "V" }⟩ : Marker VMarkerData))] "v1" = some m ∧
      assocGet (updateVesselsModel
          [("v1", ⟨4, { pos := (0, 0), popup := "old", icon := "#3388ff", title := "V" }⟩)]
          [⟨"v1", "m1", "V", "cargo", 1, 2, 3, 4, "t"⟩] 9).markers "v1" =
        some ⟨m.gen, updVesselMarker m.data ⟨"v1", "m1", "V", "cargo", 1, 2, 3, 4, "t"⟩⟩ ∧
      (updVesselMarker m.data ⟨"v1", "m1", "V", "cargo", 1, 2, 3, 4, "t"⟩).pos = (3, 4) ∧
      (updVesselMarker m.data ⟨"v1", "m1", "V", "cargo", 1, 2, 3, 4, "t"⟩).popup =
        createVesselPopup ⟨"v1", "m1", "V", "cargo", 1, 2, 3, 4, "t"⟩) ∧
    (∃ m, assocGet [("recaap_9", (⟨0, { pos := (some 5, some 5), popup := "old", icon := "#fbbf24", title := "old" }⟩ : Marker IMarkerData))] "recaap_9" = some m ∧
      assocGet (updateIncidentsModel
          [("recaap_9", ⟨0, { pos := (some 5, some 5), popup := "old", icon := "#fbbf24", title := "old" }⟩)]
          [cexMovedIncident] 1).markers "recaap_9" =
        some ⟨m.gen, updIncidentMarker m.data cexMovedIncident⟩ ∧
      (updIncidentMarker m.data cexMovedIncident).pos = m.data.pos ∧
      (updIncidentMarker m.data cexMovedIncident).popup = createIncidentPopup cexMovedIncident) := by
  have h := update_in_place_amended
    [("v1", ⟨4, { pos := (0, 0), popup := "old", icon := "#3388ff", title := "V" }⟩)]
    [⟨"v1", "m1", "V", "cargo", 1, 2, 3, 4, "t"⟩] 9
    [("recaap_9", ⟨0, { pos := (some 5, some 5), popup := "old", icon := "#fbbf24", title := "old" }⟩)]
    [cexMovedIncident] 1 (by decide) (by decide)
  constructor
  · obtain ⟨m, hm1, hm2, hm3, hm4⟩ := h.1 ⟨"v1", "m1", "V", "cargo", 1, 2, 3, 4, "t"⟩
      (by simp) (by decide)
    exact ⟨m, hm1, hm2, hm3, hm4⟩
  · obtain ⟨m, hm1, hm2, hm3, hm4⟩ := h.2 cexMovedIncident (by simp) (by decide)
    exact ⟨m, hm1, hm2, hm3, hm4⟩

/-! ### Store subscription (`MaritimeMonitorApp.subscribeToStore`)

The subscriber reruns the reconcilers on every store notification — but only
when the notified collection is non-empty (`state.vessels.length > 0` etc.). -/

/-- The vessel part of the store subscriber. -/
def subscribeVesselsStep (ms : List (String × Marker VMarkerData)) (g : Nat)
    (st : StoreState) : List (String × Marker VMarkerData) :=
  if 0 < st.vessels.length then (updateVesselsModel ms st.vessels g).markers else ms

/-- The incident part of the store subscriber. -/
def subscribeIncidentsStep (ms : List (String × Marker IMarkerData)) (g : Nat)
    (st : StoreState) : List (String × Marker IMarkerData) :=
  if 0 < st.incidents.length then (updateIncidentsModel ms st.incidents g).markers else ms

/-- The weather part of the store subscriber. -/
def subscribeWeatherStep (ms : List (String × Marker WMarkerData)) (g : Nat)
    (st : StoreState) : List (String × Marker WMarkerData) :=
  if 0 < st.weather.length then (updateWeatherModel ms st.weather g).markers else ms

/-- Counterexample for C6 as stated: replacing the vessel collection with an
empty batch does not remove the previously rendered marker `A` — the
subscriber skips reconciliation entirely for an empty collection. -/
theorem empty_batch_not_evicted :
    subscribeVesselsStep
        [("A", ⟨0, { pos := (1, 2), popup := "p", icon := "#3388ff", title := "A" }⟩)] 1
        (setVessels initialState [] 0) =
      [("A", ⟨0, { pos := (1, 2), popup := "p", icon := "#3388ff", title := "A" }⟩)] ∧
    "A" ∉ (setVessels initialState [] 0).vessels.map Vessel.id := by
  exact ⟨rfl, by simp [setVessels]⟩

/-- Claim C6 (amended): for every non-empty batch applied via
`replaceCollection`, every previously rendered id absent from the batch is
removed from the visual surface by the subscriber-driven reconciliation; an
empty batch is skipped by the subscriber's length guard and leaves the
rendered markers unchanged. -/
theorem eviction_by_absence_amended (st : StoreState) (t : Nat) (k : String)
    (msV : List (String × Marker VMarkerData)) (gV : Nat) (X : List Vessel)
    (msI : List (String × Marker IMarkerData)) (gI : Nat) (Y : List SecurityIncident)
    (msW : List (String × Marker WMarkerData)) (gW : Nat) (Z : List WeatherData)
    (hX : X ≠ []) (hY : Y ≠ []) (hZ : Z ≠ []) :
    (k ∉ X.map Vessel.id →
      k ∉ assocKeys (subscribeVesselsStep msV gV (setVessels st X t))) ∧
    (k ∉ Y.map SecurityIncident.id →
      k ∉ assocKeys (subscribeIncidentsStep msI gI (setIncidents st Y t))) ∧
    (k ∉ Z.map WeatherData.id →
      k ∉ assocKeys (subscribeWeatherStep msW gW (setWeather st Z))) := by
  refine ⟨?_, ?_, ?_⟩
  · intro hk hmem
    have hlen : 0 < (setVessels st X t).vessels.length := by
      cases X with
      | nil => exact absurd rfl hX
      | cons a l => simp [setVessels]
    rw [subscribeVesselsStep, if_pos hlen] at hmem
    exact hk (reconcile_keys_subset Vessel.id mkVesselMarker updVesselMarker msV X gV k hmem)
  · intro hk hmem
    have hlen : 0 < (setIncidents st Y t).incidents.length := by
      cases Y with
      | nil => exact absurd rfl hY
      | cons a l => simp [setIncidents]
    rw [subscribeIncidentsStep, if_pos hlen] at hmem
    exact hk (reconcile_keys_subset SecurityIncident.id mkIncidentMarker updIncidentMarker
      msI Y gI k hmem)
  · intro hk hmem
    have hlen : 0 < (setWeather st Z).weather.length := by
      cases Z with
      | nil => exact absurd rfl hZ
      | cons a l => simp [setWeather]
    rw [subscribeWeatherStep, if_pos hlen] at hmem
    exact hk (reconcile_keys_subset WeatherData.id mkWeatherMarker updWeatherMarker
      msW Z gW k hmem)

/-- Witness for C6 (amended): a rendered vessel `A` disappears after a
non-empty batch containing only `B`. -/
theorem eviction_by_absence_amended_witness :
    "A" ∉ assocKeys (subscribeVesselsStep
      [("A", ⟨0, { pos := (1, 2), popup := "p", icon := "#3388ff", title := "A" }⟩)] 1
      (setVessels initialState [⟨"B", "m1", "B", "cargo", 1, 2, 3, 4, "t"⟩] 0)) := by
  have h := eviction_by_absence_amended initialState 0 "A"
    [("A", ⟨0, { pos := (1, 2), popup := "p", icon := "#3388ff", title := "A" }⟩)] 1
    [⟨"B", "m1", "B", "cargo", 1, 2, 3, 4, "t"⟩]
    [] 0 [cexMovedIncident] [] 0
    [cexWeatherValue]
    (by decide) (by decide) (by decide)
  exact h.1 (by decide)

theorem assocGet_append_left {κ γ : Type} [DecidableEq κ] (l l2 : List (κ × γ)) (k : κ) (v : γ)
    (h : assocGet l k = some v) : assocGet (l ++ l2) k = some v := by
  induction l with
  | nil => simp [assocGet, List.find?] at h
  | cons p rest ih =>
      obtain ⟨a, b⟩ := p
      by_cases ha : a = k
      · subst ha
        rw [assocGet_cons_self] at h
        rw [List.cons_append, assocGet_cons_self]
        exact h
      · rw [assocGet_cons_other rest a k b ha] at h
        rw [List.cons_append, assocGet_cons_other _ a k b ha]
        exact ih h

theorem assocGet_append_right {κ γ : Type} [DecidableEq κ] (l l2 : List (κ × γ)) (k : κ)
    (h : k ∉ assocKeys l) : assocGet (l ++ l2) k = assocGet l2 k := by
  induction l with
  | nil => simp
  | cons p rest ih =>
      obtain ⟨a, b⟩ := p
      have ha : a ≠ k := fun hh => h (by simp [assocKeys, hh])
      have hr : k ∉ assocKeys rest := fun hh => h (by
        simp only [assocKeys, List.map_cons, List.mem_cons]
        exact Or.inr hh)
      rw [List.cons_append, assocGet_cons_other _ a k b ha]
      exact ih hr

/-! ### `getState` isolation (`maritime-store.ts`)

`getState` returns `Object.freeze({ ...this.state })`: a fresh object whose
top-level fields are copied from the internal state object, with top-level
assignment disabled.  `updateState` rebinds `this.state` to a freshly spread
object and never mutates one in place.  A small object heap makes the
aliasing explicit: an address maps to a field record plus a frozen flag, and
an attempted top-level assignment to a frozen object leaves the heap
unchanged (it throws in strict mode, is silently ignored otherwise). -/

/-- The JavaScript object heap: address, field record, frozen flag. -/
structure JsHeap where
  objs : List (Nat × (StoreState × Bool))
  deriving Repr, DecidableEq

/-- Dereference an address. -/
def heapGet (h : JsHeap) (a : Nat) : Option (StoreState × Bool) :=
  assocGet h.objs a

/-- An address not yet used by any allocated object. -/
def freshAddr (h : JsHeap) : Nat :=
  listMax (h.objs.map (fun p => p.1)) + 1

/-- Allocate a new object (object literal evaluation). -/
def heapAlloc (h : JsHeap) (o : StoreState) (frozen : Bool) : JsHeap × Nat :=
  (⟨h.objs ++ [(freshAddr h, (o, frozen))]⟩, freshAddr h)

/-- An attempted top-level field assignment `obj.field = v`, with the new
field record given as a function of the old one; a no-op on frozen objects
and on dangling addresses. -/
def heapWrite (h : JsHeap) (a : Nat) (f : StoreState → StoreState) : JsHeap :=
  match heapGet h a with
  | some (o, frozen) => if frozen then h else ⟨assocSet h.objs a (f o, false)⟩
  | none => h

/-- `getState()`: `Object.freeze({ ...this.state })` — allocate a frozen
shallow copy of the internal state object and return its address. -/
def getStateOp (h : JsHeap) (stateAddr : Nat) : JsHeap × Nat :=
  match heapGet h stateAddr with
  | some (o, _) => heapAlloc h o true
  | none => (h, 0)

theorem freshAddr_not_mem (h : JsHeap) : freshAddr h ∉ assocKeys h.objs := by
  intro hmem
  have : freshAddr h ≤ listMax (h.objs.map (fun p => p.1)) := le_listMax hmem
  simp only [freshAddr] at this
  omega

/-- Claim C10: `getState` returns a fresh, shallowly frozen copy — a
different object than the internal state, carrying the same top-level
fields; assigning to the returned object's fields changes neither the
store's internal state object nor the snapshot a subsequent `getState`
(and hence a subscriber notification, which receives the internal object)
observes. -/
theorem get_state_isolated (h : JsHeap) (stateAddr : Nat) (o : StoreState) (fz : Bool)
    (hst : heapGet h stateAddr = some (o, fz)) :
    (getStateOp h stateAddr).2 ≠ stateAddr ∧
    heapGet (getStateOp h stateAddr).1 stateAddr = some (o, fz) ∧
    heapGet (getStateOp h stateAddr).1 (getStateOp h stateAddr).2 = some (o, true) ∧
    (∀ f, heapWrite (getStateOp h stateAddr).1 (getStateOp h stateAddr).2 f =
      (getStateOp h stateAddr).1) ∧
    (∀ f, heapGet (heapWrite (getStateOp h stateAddr).1 (getStateOp h stateAddr).2 f)
      stateAddr = some (o, fz)) ∧
    (∀ f, heapGet
      (getStateOp (heapWrite (getStateOp h stateAddr).1 (getStateOp h stateAddr).2 f) stateAddr).1
      (getStateOp (heapWrite (getStateOp h stateAddr).1 (getStateOp h stateAddr).2 f) stateAddr).2 =
      some (o, true)) := by
  have hres : getStateOp h stateAddr =
      (⟨h.objs ++ [(freshAddr h, (o, true))]⟩, freshAddr h) := by
    simp only [getStateOp, hst, heapAlloc]
  have hmem : stateAddr ∈ assocKeys h.objs :=
    (assocGet_isSome_iff_mem h.objs stateAddr).mp (by rw [show assocGet h.objs stateAddr = some (o, fz) from hst]; rfl)
  have hne : freshAddr h ≠ stateAddr := by
    intro he
    exact freshAddr_not_mem h (he ▸ hmem)
  have hget_old : heapGet (⟨h.objs ++ [(freshAddr h, (o, true))]⟩ : JsHeap) stateAddr =
      some (o, fz) := by
    simp only [heapGet]
    exact assocGet_append_left h.objs _ stateAddr (o, fz) hst
  have hget_new : heapGet (⟨h.objs ++ [(freshAddr h, (o, true))]⟩ : JsHeap) (freshAddr h) =
      some (o, true) := by
    simp only [heapGet]
    rw [assocGet_append_right h.objs _ (freshAddr h) (freshAddr_not_mem h)]
    exact assocGet_cons_self [] (freshAddr h) (o, true)
  have hwrite : ∀ f, heapWrite (⟨h.objs ++ [(freshAddr h, (o, true))]⟩ : JsHeap)
      (freshAddr h) f = (⟨h.objs ++ [(freshAddr h, (o, true))]⟩ : JsHeap) := by
    intro f
    simp only [heapWrite, hget_new]
    simp
  refine ⟨by rw [hres]; exact hne, by rw [hres]; exact hget_old, by rw [hres]; exact hget_new,
    ?_, ?_, ?_⟩
  · intro f
    rw [hres]
    exact hwrite f
  · intro f
    rw [hres]
    simp only [hwrite f]
    exact hget_old
  · intro f
    rw [hres]
    simp only [hwrite f]
    have hres2 : getStateOp (⟨h.objs ++ [(freshAddr h, (o, true))]⟩ : JsHeap) stateAddr =
        (⟨(h.objs ++ [(freshAddr h, (o, true))]) ++
            [(freshAddr ⟨h.objs ++ [(freshAddr h, (o, true))]⟩, (o, true))]⟩,
          freshAddr ⟨h.objs ++ [(freshAddr h, (o, true))]⟩) := by
      simp only [getStateOp, hget_old, heapAlloc]
    rw [hres2]
    simp only [heapGet]
    rw [assocGet_append_right _ _ _ (freshAddr_not_mem ⟨h.objs ++ [(freshAddr h, (o, true))]⟩)]
    exact assocGet_cons_self [] _ (o, true)

/-- Witness for C10 at a one-object heap holding the initial store state. -/
theorem get_state_isolated_witness :
    (getStateOp ⟨[(1, (initialState, false))]⟩ 1).2 ≠ 1 ∧
    heapGet (getStateOp ⟨[(1, (initialState, false))]⟩ 1).1 1 = some (initialState, false) ∧
    (∀ f, heapWrite (getStateOp ⟨[(1, (initialState, false))]⟩ 1).1
      (getStateOp ⟨[(1, (initialState, false))]⟩ 1).2 f =
      (getStateOp ⟨[(1, (initialState, false))]⟩ 1).1) := by
  have h := get_state_isolated ⟨[(1, (initialState, false))]⟩ 1 initialState false rfl
  exact ⟨h.1, h.2.1, h.2.2.2.1⟩
